import Mathlib

/-!
Verification of the Origin deterministic snapshot engine (DPACK / CPACK).

This file gives a shallow embedding, in Lean 4, of the core of the
`origin_orgasystem_utils` crates:

* `seed_core`       : SHA-256 hex fingerprinting (`compute_sha256`);
* `dpack_core`      : manifest (`compute_pack_hash`, `verify_integrity`),
                      policy globs (`glob_match`, `Policy.is_allowed`),
                      pack / verify / unfurl (`pack_repo`, `verify_pack`,
                      `unfurl_pack`, `verify_shape_equivalence`);
* `compress`        : the CPACK frame (`CpackHeader`, `encode_payload`,
                      `decode_payload`) and codec (`compress_dpack`,
                      `decompress_cpack`).

Modelling conventions:

* Rust byte strings (`Vec<u8>`, and `String` / `&str`, which in Rust are
  UTF-8 byte sequences) are modelled as `List Nat` with entries `< 256`;
  string comparison, ordering and slicing in the source are byte-based,
  and so are they here.
* The filesystem side effects of an operation are modelled by explicit
  inputs and outputs: a directory tree is a finite map from relative
  path to content bytes, an operation that writes files returns the map
  of written files, and an operation that fails before writing returns
  an error and no map.
* `zstd` is an external collaborator; it is modelled as an explicit
  `Codec` argument (an encoder and a fallible decoder).  Theorems that
  need losslessness take the round-trip law as a hypothesis.
* Rust panics (reachable in `glob_match` through string slicing with a
  reversed range) are modelled by `Option`: `none` is a panic.
* SHA-256 itself comes from the external `sha2` crate; it is modelled
  here by a complete executable implementation of FIPS 180-4 SHA-256,
  with the crate's incremental `update` calls modelled as byte-list
  concatenation.
* Nondeterministic timestamps (`chrono::Utc::now`) are not part of the
  model: the `created_at` / receipt timestamp fields are either carried
  as ordinary data (manifest) or omitted (receipts); no claim depends
  on them.
-/

set_option maxRecDepth 1000000
set_option maxHeartbeats 2000000

namespace Origin

/-- A byte string: list of byte values (each `< 256` in well-formed data). -/
abbrev Bytes := List Nat

/-- ASCII literal helper: the bytes of an ASCII Lean string.  Used only to
write concrete byte strings readably; all inputs passed to it in this file
are ASCII, where codepoint = UTF-8 byte. -/
def lit (s : String) : Bytes := s.data.map Char.toNat

/-! ## SHA-256 (model of the `sha2` crate, FIPS 180-4) -/

/-- SHA-256 round constants. -/
def k256 : List Nat :=
  [1116352408, 1899447441, 3049323471, 3921009573, 961987163, 1508970993,
   2453635748, 2870763221, 3624381080, 310598401, 607225278, 1426881987,
   1925078388, 2162078206, 2614888103, 3248222580, 3835390401, 4022224774,
   264347078, 604807628, 770255983, 1249150122, 1555081692, 1996064986,
   2554220882, 2821834349, 2952996808, 3210313671, 3336571891, 3584528711,
   113926993, 338241895, 666307205, 773529912, 1294757372, 1396182291,
   1695183700, 1986661051, 2177026350, 2456956037, 2730485921, 2820302411,
   3259730800, 3345764771, 3516065817, 3600352804, 4094571909, 275423344,
   430227734, 506948616, 659060556, 883997877, 958139571, 1322822218,
   1537002063, 1747873779, 1955562222, 2024104815, 2227730452, 2361852424,
   2428436474, 2756734187, 3204031479, 3329325298]

/-- SHA-256 initial hash state. -/
def h256init : List Nat :=
  [1779033703, 3144134277, 1013904242, 2773480762,
   1359893119, 2600822924, 528734635, 1541459225]

/-- 32-bit rotate right (argument assumed `< 2^32`). -/
def rotr32 (n x : Nat) : Nat := x / 2 ^ n + x % 2 ^ n * 2 ^ (32 - n)

/-- SHA-256 small sigma 0. -/
def ssig0 (x : Nat) : Nat := rotr32 7 x ^^^ rotr32 18 x ^^^ x / 8

/-- SHA-256 small sigma 1. -/
def ssig1 (x : Nat) : Nat := rotr32 17 x ^^^ rotr32 19 x ^^^ x / 1024

/-- SHA-256 big sigma 0. -/
def bsig0 (x : Nat) : Nat := rotr32 2 x ^^^ rotr32 13 x ^^^ rotr32 22 x

/-- SHA-256 big sigma 1. -/
def bsig1 (x : Nat) : Nat := rotr32 6 x ^^^ rotr32 11 x ^^^ rotr32 25 x

/-- SHA-256 choice function (32-bit complement written by subtraction). -/
def ch32 (x y z : Nat) : Nat := (x &&& y) ^^^ ((4294967295 - x) &&& z)

/-- SHA-256 majority function. -/
def maj32 (x y z : Nat) : Nat := (x &&& y) ^^^ (x &&& z) ^^^ (y &&& z)

/-- Big-endian 4-byte encoding of a 32-bit word. -/
def be32 (w : Nat) : Bytes := [w / 16777216 % 256, w / 65536 % 256, w / 256 % 256, w % 256]

/-- Big-endian 8-byte encoding of a 64-bit value. -/
def be64 (n : Nat) : Bytes :=
  [n / 2 ^ 56 % 256, n / 2 ^ 48 % 256, n / 2 ^ 40 % 256, n / 2 ^ 32 % 256,
   n / 2 ^ 24 % 256, n / 2 ^ 16 % 256, n / 2 ^ 8 % 256, n % 256]

/-- Read the big-endian 32-bit word at offset `i` of a byte list. -/
def word32At (l : Bytes) (i : Nat) : Nat :=
  l.getD i 0 * 16777216 + l.getD (i + 1) 0 * 65536 + l.getD (i + 2) 0 * 256 + l.getD (i + 3) 0

/-- SHA-256 message schedule: the 64 expanded words of one 64-byte block. -/
def sched64 (block : Bytes) : List Nat :=
  (List.range 48).foldl
    (fun w _ =>
      w ++ [(w.getD (w.length - 16) 0 + ssig0 (w.getD (w.length - 15) 0) +
             w.getD (w.length - 7) 0 + ssig1 (w.getD (w.length - 2) 0)) % 4294967296])
    ((List.range 16).map fun i => word32At block (4 * i))

/-- SHA-256 compression of one 64-byte block into the running state. -/
def compressBlock (h : List Nat) (block : Bytes) : List Nat :=
  let w := sched64 block
  let s := (List.range 64).foldl
    (fun (st : Nat × Nat × Nat × Nat × Nat × Nat × Nat × Nat) i =>
      let a := st.1; let b := st.2.1; let c := st.2.2.1; let d := st.2.2.2.1
      let e := st.2.2.2.2.1; let f := st.2.2.2.2.2.1; let g := st.2.2.2.2.2.2.1
      let hh := st.2.2.2.2.2.2.2
      let t1 := (hh + bsig1 e + ch32 e f g + k256.getD i 0 + w.getD i 0) % 4294967296
      let t2 := (bsig0 a + maj32 a b c) % 4294967296
      ((t1 + t2) % 4294967296, a, b, c, (d + t1) % 4294967296, e, f, g))
    (h.getD 0 0, h.getD 1 0, h.getD 2 0, h.getD 3 0,
     h.getD 4 0, h.getD 5 0, h.getD 6 0, h.getD 7 0)
  [(h.getD 0 0 + s.1) % 4294967296, (h.getD 1 0 + s.2.1) % 4294967296,
   (h.getD 2 0 + s.2.2.1) % 4294967296, (h.getD 3 0 + s.2.2.2.1) % 4294967296,
   (h.getD 4 0 + s.2.2.2.2.1) % 4294967296, (h.getD 5 0 + s.2.2.2.2.2.1) % 4294967296,
   (h.getD 6 0 + s.2.2.2.2.2.2.1) % 4294967296, (h.getD 7 0 + s.2.2.2.2.2.2.2) % 4294967296]

/-- Split a byte list into 64-byte chunks (fuel-bounded structural recursion;
the fuel is always taken to be the length of the list, which suffices). -/
def chunks64 : Nat → Bytes → List Bytes
  | 0, _ => []
  | _ + 1, [] => []
  | fuel + 1, l => l.take 64 :: chunks64 fuel (l.drop 64)

/-- SHA-256 padding: append `0x80`, zeros to 56 mod 64, and the bit length. -/
def shaPad (msg : Bytes) : Bytes :=
  msg ++ 128 :: (List.replicate ((119 - msg.length % 64) % 64) 0 ++ be64 (8 * msg.length))

/-- SHA-256 digest (32 bytes) of a byte string. -/
def sha256 (msg : Bytes) : Bytes :=
  (((chunks64 (shaPad msg).length (shaPad msg)).foldl compressBlock h256init).map be32).flatten

/-- Lowercase hex digit byte for a value `< 16`. -/
def hexDig (n : Nat) : Nat := if n < 10 then 48 + n else 87 + n

/-- Lowercase hex encoding of a byte string (model of `hex::encode`). -/
def hexEncode (bs : Bytes) : Bytes := (bs.map fun b => [hexDig (b / 16), hexDig (b % 16)]).flatten

/-- Model of `seed_core::compute_sha256`: lowercase hex SHA-256 digest. -/
def compute_sha256 (data : Bytes) : Bytes := hexEncode (sha256 data)

/-! ## Sorted maps (model of `std::collections::BTreeMap<String, _>`)

Rust's `BTreeMap<String, V>` iterates in ascending lexicographic byte
order of the keys.  It is modelled as a key-sorted association list. -/

/-- Lexicographic byte-order on byte strings (Rust's `Ord` for `String`). -/
def bytesLt : Bytes → Bytes → Bool
  | [], [] => false
  | [], _ :: _ => true
  | _ :: _, [] => false
  | a :: as_, b :: bs => if a < b then true else if b < a then false else bytesLt as_ bs

/-- Insert into a key-sorted association list, replacing an equal key
(model of `BTreeMap::insert`). -/
def insertSorted (k : Bytes) (v : α) : List (Bytes × α) → List (Bytes × α)
  | [] => [(k, v)]
  | (k', v') :: rest =>
    if bytesLt k k' then (k, v) :: (k', v') :: rest
    else if k = k' then (k, v) :: rest
    else (k', v') :: insertSorted k v rest

/-- Build a sorted map from a list of insertions (later bindings win). -/
def toSortedMap (l : List (Bytes × α)) : List (Bytes × α) :=
  l.foldl (fun m kv => insertSorted kv.1 kv.2 m) []

/-- The strict key order, as a relation on map entries. -/
def entLt (a b : Bytes × α) : Prop := bytesLt a.1 b.1 = true

/-- Strict ascending key order: the `BTreeMap` iteration invariant. -/
def KeysSorted (l : List (Bytes × α)) : Prop := List.Chain' entLt l

/-- Look up a key in an association list (model of reading `data/<rel>` in
a directory tree represented as a map). -/
def lookupMap (k : Bytes) : List (Bytes × α) → Option α
  | [] => none
  | (k', v) :: rest => if k' = k then some v else lookupMap k rest

/-! ## Manifest (model of `dpack_core::manifest`) -/

/-- A single file entry in the manifest (`FileEntry`). -/
structure FileEntry where
  sha256 : Bytes
  size : Nat
deriving DecidableEq, Repr

/-- The DPACK manifest (`DpackManifest`).  `files` is the BTreeMap of
relative path to entry, as a key-sorted association list. -/
structure DpackManifest where
  schema_version : Bytes
  root_2i_seed_fingerprint : Bytes
  created_at : Bytes
  source_root : Bytes
  files : List (Bytes × FileEntry)
  pack_hash : Bytes
deriving DecidableEq, Repr

/-- Model of `DpackManifest::compute_pack_hash`: hash the concatenation,
in map iteration order, of `path`, `":"`, `entry.sha256`, `"\n"` — the
incremental `hasher.update` calls are concatenation of the pieces. -/
def compute_pack_hash (files : List (Bytes × FileEntry)) : Bytes :=
  hexEncode (sha256 (files.foldl (fun acc kv => acc ++ kv.1 ++ [58] ++ kv.2.sha256 ++ [10]) []))

/-- Model of `DpackManifest::verify_integrity`. -/
def DpackManifest.verify_integrity (m : DpackManifest) : Bool :=
  m.pack_hash == compute_pack_hash m.files

/-! ## Policy and glob matching (model of `dpack_core::policy`)

`glob_match` can panic: in the single-`*` branch the source slices
`path[parts[0].len() .. path.len() - parts[1].len()]`, and when the two
literal parts overlap on the path the range is reversed and Rust panics.
A panic is modelled as `none`. -/

/-- The inclusion/exclusion policy (`Policy`; the `include` field is
named `include_` because `include` is a Lean keyword). -/
structure Policy where
  include_ : List Bytes
  exclude : List Bytes
deriving DecidableEq, Repr

/-- Model of `Policy::default()`: exclude `.git/**` and `.git`. -/
def Policy.defaultPolicy : Policy :=
  { include_ := [], exclude := [lit ".git/**", lit ".git"] }

/-- Model of Rust `str::split(sep)` on bytes. -/
def splitByte (sep : Nat) : Bytes → List Bytes
  | [] => [[]]
  | b :: rest =>
    if b = sep then [] :: splitByte sep rest
    else
      match splitByte sep rest with
      | s :: ss => (b :: s) :: ss
      | [] => [[b]]

/-- The suffixes of a path that follow a `'/'` byte: the candidate re-match
points of the `**/` branch of `glob_match` (`path.char_indices()` filtered
to positions holding `'/'`, taking `path[i + 1 ..]`). -/
def slashTails : Bytes → List Bytes
  | [] => []
  | b :: rest => if b = 47 then rest :: slashTails rest else slashTails rest

/-- One step of `glob_match`, fuelled (the pattern shrinks by three bytes at
every recursive call, so `pattern.length + 1` fuel always suffices;
`none` is a Rust panic). -/
def globMatchF : Nat → Bytes → Bytes → Option Bool
  | 0, _, _ => none
  | fuel + 1, pattern, path =>
    if pattern = path then some true
    else if pattern.take 3 = [42, 42, 47] then
      let suffix := pattern.drop 3
      if suffix.isSuffixOf path then some true
      else
        match (slashTails path).foldl
            (fun acc t =>
              match acc with
              | none => none
              | some true => some true
              | some false => globMatchF fuel suffix t) (some false) with
        | none => none
        | some true => some true
        | some false => globMatchF fuel suffix path
    else if [47, 42, 42].isSuffixOf pattern then
      let pfx := pattern.take (pattern.length - 3)
      some (pfx.isPrefixOf path &&
        (path.length == pfx.length || path.getD pfx.length 0 == 47))
    else if pattern.contains 42 then
      match splitByte 42 pattern with
      | [p0, p1] =>
        if p0.isPrefixOf path then
          if p1.isSuffixOf path then
            if path.length < p0.length + p1.length then none
            else some (!((path.drop p0.length).take (path.length - p1.length - p0.length)).contains 47)
          else some false
        else some false
      | _ => some false
    else some false

/-- Model of `glob_match` (minimal glob dialect; `none` is a panic). -/
def glob_match (pattern path : Bytes) : Option Bool :=
  globMatchF (pattern.length + 1) pattern path

/-- Run `glob_match` over a pattern list, short-circuiting on the first
match and propagating a panic (the `for` loops of `is_allowed`). -/
def anyGlob (patterns : List Bytes) (path : Bytes) : Option Bool :=
  match patterns with
  | [] => some false
  | p :: ps =>
    match glob_match p path with
    | none => none
    | some true => some true
    | some false => anyGlob ps path

/-- Model of `Policy::is_allowed` (`none` is a panic escaping from
`glob_match`). -/
def Policy.is_allowed (pol : Policy) (rel_path : Bytes) : Option Bool :=
  match anyGlob pol.exclude rel_path with
  | none => none
  | some true => some false
  | some false =>
    if pol.include_.isEmpty then some true
    else anyGlob pol.include_ rel_path

/-! ## CPACK frame (model of `compress::frame`) -/

/-- Little-endian 4-byte encoding of a `u32` (an `as u32` cast truncates,
hence the `% 2^32`). -/
def le32 (n : Nat) : Bytes := [n % 256, n / 256 % 256, n / 65536 % 256, n / 16777216 % 256]

/-- Little-endian 8-byte encoding of a `u64`. -/
def le64 (n : Nat) : Bytes :=
  [n % 256, n / 2 ^ 8 % 256, n / 2 ^ 16 % 256, n / 2 ^ 24 % 256,
   n / 2 ^ 32 % 256, n / 2 ^ 40 % 256, n / 2 ^ 48 % 256, n / 2 ^ 56 % 256]

/-- Frame-level errors (`FrameError`).  The detail payloads of the `Io` and
`Json` variants (foreign error values) are not modelled. -/
inductive FrameError where
  | HeaderTooShort (got need : Nat)
  | BadMagic
  | UnsupportedVersion (v : Nat)
  | UnsupportedCompression (m : Nat)
  | PayloadTruncated
  | InvalidUtf8Path
  | IntegrityMismatch
  | Io
  | Json
deriving DecidableEq, Repr

deriving instance DecidableEq for Except

/-- The CPACK header (`CpackHeader`); `payload_sha256` is the 32-byte digest. -/
structure CpackHeader where
  version : Nat
  compression_method : Nat
  payload_sha256 : Bytes
  compressed_size : Nat
deriving DecidableEq, Repr

/-- Model of `CpackHeader::to_bytes`: magic `CPCK`, version, method, two
reserved zero bytes, the 32-byte payload hash, and the LE64 length. -/
def CpackHeader.to_bytes (h : CpackHeader) : Bytes :=
  67 :: 80 :: 67 :: 75 :: h.version % 256 :: h.compression_method % 256 :: 0 :: 0 ::
    (h.payload_sha256 ++ le64 h.compressed_size)

/-- Model of `CpackHeader::from_bytes`. -/
def CpackHeader.from_bytes (data : Bytes) : Except FrameError CpackHeader :=
  if data.length < 48 then .error (.HeaderTooShort data.length 48)
  else if data.take 4 ≠ [67, 80, 67, 75] then .error .BadMagic
  else if data.getD 4 0 ≠ 1 then .error (.UnsupportedVersion (data.getD 4 0))
  else if data.getD 5 0 ≠ 1 then .error (.UnsupportedCompression (data.getD 5 0))
  else .ok
    { version := data.getD 4 0
      compression_method := data.getD 5 0
      payload_sha256 := (data.drop 8).take 32
      compressed_size := ((data.drop 40).take 8).foldr (fun b acc => b + 256 * acc) 0 }

/-- Model of `encode_payload`: LE32 manifest length, manifest bytes, LE32
file count, then for each file LE32 path length, path bytes, LE64 content
length, content bytes.  Length fields truncate like the `as u32` casts. -/
def encode_payload (manifest_json : Bytes) (files : List (Bytes × Bytes)) : Bytes :=
  le32 manifest_json.length ++ manifest_json ++ le32 files.length ++
    (files.map fun pc => le32 pc.1.length ++ pc.1 ++ le64 pc.2.length ++ pc.2).flatten

/-- Consume a LE32 length field (bounds check of `decode_payload`). -/
def readU32 : Bytes → Except FrameError (Nat × Bytes)
  | b0 :: b1 :: b2 :: b3 :: rest => .ok (b0 + 256 * (b1 + 256 * (b2 + 256 * b3)), rest)
  | _ => .error .PayloadTruncated

/-- Consume a LE64 length field. -/
def readU64 : Bytes → Except FrameError (Nat × Bytes)
  | b0 :: b1 :: b2 :: b3 :: b4 :: b5 :: b6 :: b7 :: rest =>
    .ok (b0 + 256 * (b1 + 256 * (b2 + 256 * (b3 + 256 * (b4 + 256 * (b5 + 256 * (b6 + 256 * b7)))))), rest)
  | _ => .error .PayloadTruncated

/-- Consume exactly `n` bytes (the `data.len() < pos + n` checks). -/
def readChunk (n : Nat) (data : Bytes) : Except FrameError (Bytes × Bytes) :=
  if data.length < n then .error .PayloadTruncated else .ok (data.take n, data.drop n)

/-- Validity check for UTF-8 byte sequences (model of the success condition
of `String::from_utf8`, per the RFC 3629 table: no overlong forms, no
surrogates, nothing above `U+10FFFF`). -/
def isValidUtf8 : Bytes → Bool
  | [] => true
  | b :: rest =>
    if b < 128 then isValidUtf8 rest
    else if b < 194 then false
    else if b < 224 then
      match rest with
      | c1 :: r => 128 ≤ c1 && c1 < 192 && isValidUtf8 r
      | [] => false
    else if b < 240 then
      match rest with
      | c1 :: c2 :: r =>
        (if b = 224 then 160 ≤ c1 && c1 < 192
         else if b = 237 then 128 ≤ c1 && c1 < 160
         else 128 ≤ c1 && c1 < 192) &&
        (128 ≤ c2 && c2 < 192) && isValidUtf8 r
      | _ => false
    else if b < 245 then
      match rest with
      | c1 :: c2 :: c3 :: r =>
        (if b = 240 then 144 ≤ c1 && c1 < 192
         else if b = 244 then 128 ≤ c1 && c1 < 144
         else 128 ≤ c1 && c1 < 192) &&
        (128 ≤ c2 && c2 < 192) && (128 ≤ c3 && c3 < 192) && isValidUtf8 r
      | _ => false
    else false

/-- Decode the per-file records of a payload; the loop counter is the
declared file count (`for _ in 0..fcount`), trailing bytes are ignored. -/
def decodeFiles : Nat → Bytes → Except FrameError (List (Bytes × Bytes))
  | 0, _ => .ok []
  | n + 1, data => do
    let (plen, r1) ← readU32 data
    let (pbytes, r2) ← readChunk plen r1
    if isValidUtf8 pbytes then do
      let (clen, r3) ← readU64 r2
      let (content, r4) ← readChunk clen r3
      let files ← decodeFiles n r4
      .ok ((pbytes, content) :: files)
    else .error .InvalidUtf8Path

/-- Model of `decode_payload`. -/
def decode_payload (data : Bytes) : Except FrameError (Bytes × List (Bytes × Bytes)) := do
  let (mlen, r1) ← readU32 data
  let (manifest_json, r2) ← readChunk mlen r1
  let (fcount, r3) ← readU32 r2
  let files ← decodeFiles fcount r3
  .ok (manifest_json, files)

/-- The zstd codec, an external collaborator: an encoder and a fallible
decoder (`zstd::encode_all` at level 3 / `zstd::decode_all`). -/
structure Codec where
  enc : Bytes → Bytes
  dec : Bytes → Option Bytes

/-! ## Canonical JSON (model of `serde_json` for `DpackManifest`)

`compress_dpack` re-serializes the parsed manifest with
`serde_json::to_vec` — COMPACT JSON, struct fields in declaration order,
the `files` BTreeMap in ascending key order — while `pack_repo` writes
`manifest.json` with `serde_json::to_string_pretty` (two-space indent).
Both byte-level serializers are modelled here. -/

/-- serde_json string escaping of one byte: `"` and `\` get a backslash,
control bytes use the short forms `\b \t \n \f \r` or `\u00XX`, and all
other bytes pass through verbatim. -/
def escByte (b : Nat) : Bytes :=
  if b = 34 then [92, 34]
  else if b = 92 then [92, 92]
  else if b = 8 then [92, 98]
  else if b = 9 then [92, 116]
  else if b = 10 then [92, 110]
  else if b = 12 then [92, 102]
  else if b = 13 then [92, 114]
  else if b < 32 then [92, 117, 48, 48, hexDig (b / 16), hexDig (b % 16)]
  else [b]

/-- A JSON string literal: quote, escaped bytes, quote. -/
def jstr (s : Bytes) : Bytes := 34 :: (s.map escByte).flatten ++ [34]

/-- Decimal digits of a `Nat` (fuelled; fuel `n + 1` always suffices). -/
def natDigitsAux : Nat → Nat → Bytes
  | 0, _ => []
  | fuel + 1, n => if n < 10 then [48 + n] else natDigitsAux fuel (n / 10) ++ [48 + n % 10]

/-- Decimal ASCII representation of a `Nat` (serde_json number output). -/
def natDigits (n : Nat) : Bytes := natDigitsAux (n + 1) n

/-- Compact JSON for one `FileEntry`. -/
def serEntry (e : FileEntry) : Bytes :=
  123 :: lit "\"sha256\":" ++ jstr e.sha256 ++ lit ",\"size\":" ++ natDigits e.size ++ [125]

/-- Compact JSON for the entries of the `files` map, comma-separated. -/
def serFilesInner : List (Bytes × FileEntry) → Bytes
  | [] => []
  | kv :: rest =>
    match rest with
    | [] => jstr kv.1 ++ 58 :: serEntry kv.2
    | _ :: _ => jstr kv.1 ++ 58 :: serEntry kv.2 ++ 44 :: serFilesInner rest

/-- Compact JSON for the `files` map. -/
def serFiles (files : List (Bytes × FileEntry)) : Bytes :=
  123 :: serFilesInner files ++ [125]

/-- Model of `serde_json::to_vec(&manifest)`: compact JSON, struct fields in
declaration order, `files` in map (ascending key) order. -/
def serManifest (m : DpackManifest) : Bytes :=
  123 :: lit "\"schema_version\":" ++ jstr m.schema_version ++
  lit ",\"root_2i_seed_fingerprint\":" ++ jstr m.root_2i_seed_fingerprint ++
  lit ",\"created_at\":" ++ jstr m.created_at ++
  lit ",\"source_root\":" ++ jstr m.source_root ++
  lit ",\"files\":" ++ serFiles m.files ++
  lit ",\"pack_hash\":" ++ jstr m.pack_hash ++ [125]

/-- Pretty JSON for one `FileEntry` at nesting depth 2 (two-space indent). -/
def serEntryPretty (e : FileEntry) : Bytes :=
  123 :: 10 :: lit "      \"sha256\": " ++ jstr e.sha256 ++
  44 :: 10 :: lit "      \"size\": " ++ natDigits e.size ++
  10 :: lit "    " ++ [125]

/-- Pretty JSON for the entries of the `files` map at depth 1. -/
def serFilesInnerPretty : List (Bytes × FileEntry) → Bytes
  | [] => []
  | kv :: rest =>
    match rest with
    | [] => lit "    " ++ jstr kv.1 ++ lit ": " ++ serEntryPretty kv.2
    | _ :: _ =>
      lit "    " ++ jstr kv.1 ++ lit ": " ++ serEntryPretty kv.2 ++ 44 :: 10 ::
        serFilesInnerPretty rest

/-- Pretty JSON for the `files` map (empty maps print as the two bytes
of an empty object, as serde_json's pretty formatter does). -/
def serFilesPretty (files : List (Bytes × FileEntry)) : Bytes :=
  match files with
  | [] => [123, 125]
  | _ => 123 :: 10 :: serFilesInnerPretty files ++ 10 :: lit "  " ++ [125]

/-- Model of `serde_json::to_string_pretty(&manifest)` (the byte form
`pack_repo` writes to `manifest.json`). -/
def serManifestPretty (m : DpackManifest) : Bytes :=
  123 :: 10 :: lit "  \"schema_version\": " ++ jstr m.schema_version ++
  44 :: 10 :: lit "  \"root_2i_seed_fingerprint\": " ++ jstr m.root_2i_seed_fingerprint ++
  44 :: 10 :: lit "  \"created_at\": " ++ jstr m.created_at ++
  44 :: 10 :: lit "  \"source_root\": " ++ jstr m.source_root ++
  44 :: 10 :: lit "  \"files\": " ++ serFilesPretty m.files ++
  44 :: 10 :: lit "  \"pack_hash\": " ++ jstr m.pack_hash ++
  10 :: [125]

/-! ## Manifest JSON parsing

Model of `serde_json::from_slice::<DpackManifest>` on the image of the
canonical serializer (the form `decompress_cpack` writes back to disk):
a rigid parser of exactly that grammar.  serde_json's whitespace and
field-reordering tolerance, and its `\uXXXX` surrogate-pair machinery
(never emitted by the serializer), are outside the modelled image. -/

/-- Consume an exact literal prefix. -/
def expectLit : Bytes → Bytes → Option Bytes
  | [], s => some s
  | _ :: _, [] => none
  | p :: ps, b :: rest => if b = p then expectLit ps rest else none

/-- Value of an ASCII hex digit. -/
def hexVal (b : Nat) : Option Nat :=
  if 48 ≤ b ∧ b ≤ 57 then some (b - 48)
  else if 97 ≤ b ∧ b ≤ 102 then some (b - 87)
  else if 65 ≤ b ∧ b ≤ 70 then some (b - 55)
  else none

/-- Unescape a single-character JSON escape code. -/
def unescByte (e : Nat) : Option Nat :=
  if e = 34 then some 34
  else if e = 92 then some 92
  else if e = 47 then some 47
  else if e = 98 then some 8
  else if e = 116 then some 9
  else if e = 110 then some 10
  else if e = 102 then some 12
  else if e = 114 then some 13
  else none

/-- Parse a JSON string body (after the opening quote) up to the closing
quote, undoing the escapes of `escByte`.  Raw control bytes are rejected,
as serde_json rejects them. -/
def parseStrBody : Bytes → Option (Bytes × Bytes)
  | [] => none
  | b :: rest =>
    if b = 34 then some ([], rest)
    else if b = 92 then
      match rest with
      | [] => none
      | e :: r =>
        if e = 117 then
          match r with
          | [] => none
          | h1 :: r1 =>
            match r1 with
            | [] => none
            | h2 :: r2 =>
              match r2 with
              | [] => none
              | h3 :: r3 =>
                match r3 with
                | [] => none
                | h4 :: r4 => do
                  let d1 ← hexVal h1
                  let d2 ← hexVal h2
                  let d3 ← hexVal h3
                  let d4 ← hexVal h4
                  let n := ((d1 * 16 + d2) * 16 + d3) * 16 + d4
                  if n < 128 then (parseStrBody r4).map fun p => (n :: p.1, p.2) else none
        else
          match unescByte e with
          | some v => (parseStrBody r).map fun p => (v :: p.1, p.2)
          | none => none
    else if b < 32 then none
    else (parseStrBody rest).map fun p => (b :: p.1, p.2)

/-- Parse a JSON string literal. -/
def parseJStr : Bytes → Option (Bytes × Bytes)
  | [] => none
  | b :: rest => if b = 34 then parseStrBody rest else none

/-- Longest digit prefix and the remainder. -/
def takeDigits : Bytes → Bytes × Bytes
  | [] => ([], [])
  | b :: r =>
    if 48 ≤ b ∧ b ≤ 57 then
      let p := takeDigits r
      (b :: p.1, p.2)
    else ([], b :: r)

/-- Numeric value of a digit string. -/
def digitsVal (ds : Bytes) : Nat := ds.foldl (fun a b => 10 * a + (b - 48)) 0

/-- Parse a (non-empty) decimal number. -/
def parseNatNum (s : Bytes) : Option (Nat × Bytes) :=
  match takeDigits s with
  | ([], _) => none
  | (ds, rest) => some (digitsVal ds, rest)

/-- Parse one `FileEntry` object. -/
def parseEntry (s : Bytes) : Option (FileEntry × Bytes) := do
  let r1 ← expectLit (123 :: lit "\"sha256\":") s
  let (sha, r2) ← parseJStr r1
  let r3 ← expectLit (lit ",\"size\":") r2
  let (size, r4) ← parseNatNum r3
  let r5 ← expectLit [125] r4
  some (⟨sha, size⟩, r5)

/-- Parse the comma-separated entries of a non-empty `files` object, up to
and including the closing brace (fuelled by the remaining input length:
every entry consumes at least one byte). -/
def parseFilesAux : Nat → Bytes → Option (List (Bytes × FileEntry) × Bytes)
  | 0, _ => none
  | fuel + 1, s => do
    let (k, r1) ← parseJStr s
    let r2 ← expectLit [58] r1
    let (e, r3) ← parseEntry r2
    match r3 with
    | [] => none
    | c :: r4 =>
      if c = 44 then do
        let (rest, r5) ← parseFilesAux fuel r4
        some ((k, e) :: rest, r5)
      else if c = 125 then some ([(k, e)], r4)
      else none

/-- Parse the `files` object. -/
def parseFiles (s : Bytes) : Option (List (Bytes × FileEntry) × Bytes) :=
  match s with
  | [] => none
  | b :: r =>
    if b = 123 then
      match r with
      | [] => none
      | c :: r2 => if c = 125 then some ([], r2) else parseFilesAux r.length (c :: r2)
    else none

/-- Parse a whole canonical manifest document (must consume all input, as
`serde_json::from_slice` requires EOF after the value). -/
def parseManifest (s : Bytes) : Option DpackManifest := do
  let r1 ← expectLit (123 :: lit "\"schema_version\":") s
  let (v1, r2) ← parseJStr r1
  let r3 ← expectLit (lit ",\"root_2i_seed_fingerprint\":") r2
  let (v2, r4) ← parseJStr r3
  let r5 ← expectLit (lit ",\"created_at\":") r4
  let (v3, r6) ← parseJStr r5
  let r7 ← expectLit (lit ",\"source_root\":") r6
  let (v4, r8) ← parseJStr r7
  let r9 ← expectLit (lit ",\"files\":") r8
  let (fs, r10) ← parseFiles r9
  let r11 ← expectLit (lit ",\"pack_hash\":") r10
  let (v6, r12) ← parseJStr r11
  if r12 = [125] then some ⟨v1, v2, v3, v4, fs, v6⟩ else none

/-! ## CPACK codec (model of `compress::compress` and `compress::decompress`)

`compress_dpack` reads and parses `manifest.json` (the parsed manifest is
taken here as input — the raw on-disk bytes never enter the payload), walks
`data/` collecting relative path / content pairs into a `BTreeMap`
(`dataWalk` is the walked listing, `toSortedMap` the BTreeMap), and frames
the canonical re-serialization.  `decompress_cpack` returns the bytes it
writes on success: the `manifest.json` bytes, the `data/` files, and the
recomputed payload hash; an error means nothing was written. -/

/-- Model of `compress_dpack`: returns the written `.cpack` bytes and the
returned payload hash hex string. -/
def compress_dpack (codec : Codec) (m : DpackManifest) (dataWalk : List (Bytes × Bytes)) :
    Bytes × Bytes :=
  let canonical_manifest := serManifest m
  let sorted_files := toSortedMap dataWalk
  let payload := encode_payload canonical_manifest sorted_files
  let payload_hash := sha256 payload
  let compressed := codec.enc payload
  let header : CpackHeader :=
    { version := 1, compression_method := 1,
      payload_sha256 := payload_hash, compressed_size := compressed.length }
  (header.to_bytes ++ compressed, hexEncode payload_hash)

/-- Model of `decompress_cpack`: on success returns the `manifest.json`
bytes, the `data/` files, and the recomputed payload hash hex. -/
def decompress_cpack (codec : Codec) (cpack_data : Bytes) :
    Except FrameError (Bytes × List (Bytes × Bytes) × Bytes) :=
  if cpack_data.length < 48 then .error (.HeaderTooShort cpack_data.length 48)
  else do
    let header ← CpackHeader.from_bytes cpack_data
    let compressed := cpack_data.drop 48
    if compressed.length ≠ header.compressed_size then .error .PayloadTruncated
    else
      match codec.dec compressed with
      | none => .error .Io
      | some payload =>
        if sha256 payload ≠ header.payload_sha256 then .error .IntegrityMismatch
        else do
          let (manifest_json, files) ← decode_payload payload
          .ok (manifest_json, files, hexEncode (sha256 payload))

/-! ## Receipts and the DPACK engine (model of `dpack_core::receipt` and
`dpack_core::pack`)

A DPACK directory on disk is its parsed manifest plus the tree under
`data/` as a path → content map (`DpackDir`).  Receipt timestamps
(`chrono::Utc::now`) and the payload strings of `PackError` variants are
not modelled; no claim depends on them. -/

/-- Status of a single gate check (`GateStatus`). -/
inductive GateStatus where
  | Pass
  | Fail
  | Skip
deriving DecidableEq, Repr

/-- Result of a single gate check (`GateResult`). -/
structure GateResult where
  gate : Bytes
  status : GateStatus
  detail : Bytes
deriving DecidableEq, Repr

/-- Audit receipt (`AuditReceipt`), without the wall-clock timestamp. -/
structure AuditReceipt where
  operation : Bytes
  root_2i_seed_fingerprint : Bytes
  pack_hash : Option Bytes
  gates : List GateResult
  passed : Bool
deriving DecidableEq, Repr

/-- Model of `AuditReceipt::new`: `passed` holds iff no gate failed. -/
def AuditReceipt.new (operation root_fp : Bytes) (pack_hash : Option Bytes)
    (gates : List GateResult) : AuditReceipt :=
  { operation := operation, root_2i_seed_fingerprint := root_fp, pack_hash := pack_hash,
    gates := gates, passed := gates.all fun g => !(g.status == GateStatus.Fail) }

/-- A loaded seed (`seed_core::Seed`, minus the source path). -/
structure Seed where
  bytes : Bytes
  fingerprint : Bytes
deriving DecidableEq, Repr

/-- Model of the content part of `Seed::load`: the fingerprint is the hex
SHA-256 of the seed bytes. -/
def Seed.ofBytes (b : Bytes) : Seed := ⟨b, compute_sha256 b⟩

/-- Pack-level errors (`PackError`); payload strings are not modelled. -/
inductive PackError where
  | Io
  | SeedErr
  | Json
  | Walk
  | VerificationFailed
  | GateFailed
  | PackNotFound
deriving DecidableEq, Repr

/-- A DPACK directory: parsed `manifest.json` plus the `data/` tree. -/
structure DpackDir where
  manifest : DpackManifest
  data : List (Bytes × Bytes)
deriving DecidableEq, Repr

/-- The file-collection loop of `pack_repo`: walk entries in order, skip
paths the policy rejects, record a `FileEntry` and copy the content into
`data/` for the rest (`none` is a policy panic aborting the operation). -/
def packWalk (pol : Policy) :
    List (Bytes × Bytes) → List (Bytes × FileEntry) × List (Bytes × Bytes) →
    Option (List (Bytes × FileEntry) × List (Bytes × Bytes))
  | [], acc => some acc
  | (rel, content) :: rest, acc =>
    match pol.is_allowed rel with
    | none => none
    | some false => packWalk pol rest acc
    | some true =>
      packWalk pol rest
        (insertSorted rel ⟨compute_sha256 content, content.length⟩ acc.1,
         insertSorted rel content acc.2)

/-- Model of `pack_repo`.  The repository is its walked listing of regular
files (relative path, content); the result is the written DPACK directory
and the pack receipt.  `created_at` (wall clock) is left empty. -/
def pack_repo (repo : List (Bytes × Bytes)) (source_root : Bytes) (seed : Seed)
    (policy : Option Policy) : Option (DpackDir × AuditReceipt) :=
  let pol := policy.getD Policy.defaultPolicy
  match packWalk pol repo ([], []) with
  | none => none
  | some (files, data) =>
    let pack_hash := compute_pack_hash files
    let gates : List GateResult :=
      [⟨lit "G0_SCHEMA", .Pass, lit "manifest schema v1.0"⟩,
       ⟨lit "G1_INTEGRITY", .Pass, lit "pack_hash=" ++ pack_hash.take 16⟩,
       ⟨lit "G4_SEED_BINDING", .Pass, lit "seed_fp=" ++ seed.fingerprint.take 16⟩,
       ⟨lit "G6_ORGASYSTEM_SHAPE", .Pass, natDigits files.length ++ lit " files packed"⟩,
       ⟨lit "G7_RELEASE_RECEIPT", .Pass, lit "manifest written"⟩]
    let manifest : DpackManifest :=
      { schema_version := lit "1.0", root_2i_seed_fingerprint := seed.fingerprint,
        created_at := [], source_root := source_root, files := files, pack_hash := pack_hash }
    some (⟨manifest, data⟩, AuditReceipt.new (lit "pack") seed.fingerprint (some pack_hash) gates)

/-- The G3 pinning loop of `verify_pack`: read each manifest entry's file
and compare digests, short-circuiting on the first mismatch or missing
file; returns overall success and the failure detail. -/
def checkPinning (data : List (Bytes × Bytes)) : List (Bytes × FileEntry) → Bool × Bytes
  | [] => (true, [])
  | (rel, entry) :: rest =>
    match lookupMap rel data with
    | some content =>
      if compute_sha256 content ≠ entry.sha256 then (false, lit "hash mismatch: " ++ rel)
      else checkPinning data rest
    | none => (false, lit "file missing: " ++ rel)

/-- Model of `verify_pack` (read-only; gates G0, G1, G3, G4). -/
def verify_pack (d : DpackDir) (seed : Seed) : AuditReceipt :=
  let m := d.manifest
  let integrity_ok := m.verify_integrity
  let pin := checkPinning d.data m.files
  let seed_ok := m.root_2i_seed_fingerprint = seed.fingerprint
  AuditReceipt.new (lit "verify") seed.fingerprint (some m.pack_hash)
    [⟨lit "G0_SCHEMA", if m.schema_version = lit "1.0" then .Pass else .Fail,
      lit "schema_version=" ++ m.schema_version⟩,
     ⟨lit "G1_INTEGRITY", if integrity_ok then .Pass else .Fail,
      if integrity_ok then lit "pack_hash matches" else lit "pack_hash mismatch"⟩,
     ⟨lit "G3_PINNING", if pin.1 then .Pass else .Fail,
      if pin.1 then natDigits m.files.length ++ lit " files verified" else pin.2⟩,
     ⟨lit "G4_SEED_BINDING", if seed_ok then .Pass else .Fail,
      if seed_ok then lit "seed fingerprint matches"
      else lit "expected " ++ seed.fingerprint.take 16 ++ lit ", got " ++
        m.root_2i_seed_fingerprint.take 16⟩]

/-- The restore loop of `unfurl_pack`: for each manifest entry read the
source file, re-hash, compare, and only then write into the target map.
Returns (error?, target tree written so far, files restored). -/
def unfurlFiles (data : List (Bytes × Bytes)) :
    List (Bytes × FileEntry) → List (Bytes × Bytes) →
    Option PackError × List (Bytes × Bytes) × Nat
  | [], target => (none, target, 0)
  | (rel, entry) :: rest, target =>
    match lookupMap rel data with
    | none => (some .Io, target, 0)
    | some content =>
      if compute_sha256 content ≠ entry.sha256 then (some .VerificationFailed, target, 0)
      else
        let r := unfurlFiles data rest (insertSorted rel content target)
        (r.1, r.2.1, r.2.2 + 1)

/-- Model of `unfurl_pack`.  The second component is the target directory:
`none` means it was never created (the fail-closed early return fires
before `create_dir_all(target_dir)`), `some t` means it was created and
holds exactly the tree `t`. -/
def unfurl_pack (d : DpackDir) (seed : Seed) :
    Except PackError AuditReceipt × Option (List (Bytes × Bytes)) :=
  let verify_receipt := verify_pack d seed
  if !verify_receipt.passed then (.error .VerificationFailed, none)
  else
    let m := d.manifest
    match unfurlFiles d.data m.files [] with
    | (some e, target, _) => (.error e, some target)
    | (none, target, n) =>
      (.ok (AuditReceipt.new (lit "unfurl") seed.fingerprint (some m.pack_hash)
        [⟨lit "G3_PINNING", .Pass, natDigits n ++ lit " files restored with verified hashes"⟩,
         ⟨lit "G4_SEED_BINDING", .Pass, lit "seed binding preserved"⟩,
         ⟨lit "G6_ORGASYSTEM_SHAPE", .Pass, natDigits n ++ lit " files, shape preserved"⟩]),
       some target)

/-- Model of `verify_shape_equivalence`: collect each tree's sorted map of
relative path → hex content digest and compare. -/
def verify_shape_equivalence (dir_a dir_b : List (Bytes × Bytes)) : Bool :=
  toSortedMap (dir_a.map fun pc => (pc.1, compute_sha256 pc.2)) ==
    toSortedMap (dir_b.map fun pc => (pc.1, compute_sha256 pc.2))

/-! ## Lemmas: the canonical JSON serializer parses back to the manifest -/

theorem expectLit_self (p s : Bytes) : expectLit p (p ++ s) = some s := by
  induction p with
  | nil => rfl
  | cons b ps ih => simp [expectLit, ih]

theorem hexVal_hexDig : ∀ n, n < 16 → hexVal (hexDig n) = some n := by decide

theorem parseStrBody_quote (t : Bytes) : parseStrBody (34 :: t) = some ([], t) := by
  rw [parseStrBody.eq_def]; simp

theorem parseStrBody_escByte (b : Nat) (t : Bytes) :
    parseStrBody (escByte b ++ t) = (parseStrBody t).map fun p => (b :: p.1, p.2) := by
  unfold escByte
  split_ifs with h1 h2 h3 h4 h5 h6 h7 h8 <;>
    simp only [List.cons_append, List.nil_append]
  · subst h1; rw [parseStrBody.eq_def]; simp [unescByte]
  · subst h2; rw [parseStrBody.eq_def]; simp [unescByte]
  · subst h3; rw [parseStrBody.eq_def]; simp [unescByte]
  · subst h4; rw [parseStrBody.eq_def]; simp [unescByte]
  · subst h5; rw [parseStrBody.eq_def]; simp [unescByte]
  · subst h6; rw [parseStrBody.eq_def]; simp [unescByte]
  · subst h7; rw [parseStrBody.eq_def]; simp [unescByte]
  · rw [parseStrBody.eq_def]
    norm_num
    rw [show hexVal 48 = some 0 from rfl]
    rw [hexVal_hexDig (b / 16) (by omega), hexVal_hexDig (b % 16) (by omega)]
    simp only [Option.some_bind]
    have hb : ((0 * 16 + 0) * 16 + b / 16) * 16 + b % 16 = b := by omega
    rw [hb, if_pos (by omega : b < 128)]
  · rw [parseStrBody.eq_def]
    simp [h1, h2, h8]

theorem parseStrBody_escape (s rest : Bytes) :
    parseStrBody ((s.map escByte).flatten ++ 34 :: rest) = some (s, rest) := by
  induction s with
  | nil =>
    rw [List.map_nil, List.flatten_nil, List.nil_append, parseStrBody_quote]
  | cons b s' ih =>
    rw [List.map_cons, List.flatten_cons, List.append_assoc, parseStrBody_escByte, ih]
    rfl

theorem parseJStr_jstr (s t : Bytes) : parseJStr (jstr s ++ t) = some (s, t) := by
  rw [jstr]
  simp only [List.cons_append, List.append_assoc, List.singleton_append]
  rw [parseJStr]
  norm_num
  exact parseStrBody_escape s t


theorem optBind_some (a : α) (f : α → Option β) : (some a >>= f) = f a := rfl

theorem digitsVal_append_singleton (ds : Bytes) (d : Nat) :
    digitsVal (ds ++ [d]) = 10 * digitsVal ds + (d - 48) := by
  simp [digitsVal, List.foldl_append]

theorem natDigitsAux_spec :
    ∀ fuel n, n < fuel →
      (∀ b ∈ natDigitsAux fuel n, 48 ≤ b ∧ b ≤ 57) ∧ natDigitsAux fuel n ≠ [] ∧
        digitsVal (natDigitsAux fuel n) = n := by
  intro fuel
  induction fuel with
  | zero => intro n hn; omega
  | succ f ih =>
    intro n hn
    by_cases h : n < 10
    · refine ⟨?_, ?_, ?_⟩ <;> first
        | (simp [natDigitsAux, h, digitsVal]; omega)
        | simp [natDigitsAux, h, digitsVal]
    · have hrec := ih (n / 10) (by omega)
      rw [natDigitsAux, if_neg h]
      refine ⟨?_, ?_, ?_⟩
      · intro b hb
        rcases List.mem_append.1 hb with h1 | h1
        · exact hrec.1 b h1
        · simp at h1; omega
      · simp
      · rw [digitsVal_append_singleton, hrec.2.2]; omega

theorem natDigits_spec (n : Nat) :
    (∀ b ∈ natDigits n, 48 ≤ b ∧ b ≤ 57) ∧ natDigits n ≠ [] ∧ digitsVal (natDigits n) = n :=
  natDigitsAux_spec (n + 1) n (by omega)

theorem takeDigits_split (ds rest : Bytes) (hds : ∀ b ∈ ds, 48 ≤ b ∧ b ≤ 57)
    (hr : ∀ b, rest.head? = some b → ¬(48 ≤ b ∧ b ≤ 57)) :
    takeDigits (ds ++ rest) = (ds, rest) := by
  induction ds with
  | nil =>
    cases rest with
    | nil => rfl
    | cons b r =>
      have := hr b rfl
      simp [takeDigits, this]
  | cons d ds' ih =>
    have hd := hds d (by simp)
    rw [List.cons_append, takeDigits, if_pos hd, ih (fun b hb => hds b (by simp [hb]))]

theorem parseNatNum_natDigits (n : Nat) (rest : Bytes)
    (hr : ∀ b, rest.head? = some b → ¬(48 ≤ b ∧ b ≤ 57)) :
    parseNatNum (natDigits n ++ rest) = some (n, rest) := by
  obtain ⟨hds, hne, hval⟩ := natDigits_spec n
  rw [parseNatNum, takeDigits_split _ _ hds hr]
  cases h : natDigits n with
  | nil => exact absurd h hne
  | cons d ds' => simp [← h, hval]

theorem parseEntry_serEntry (e : FileEntry) (t : Bytes) :
    parseEntry (serEntry e ++ t) = some (e, t) := by
  obtain ⟨sha, size⟩ := e
  rw [parseEntry, serEntry]
  simp only [List.cons_append, List.append_assoc, List.singleton_append, List.nil_append]
  rw [show expectLit (123 :: lit "\"sha256\":")
        (123 :: (lit "\"sha256\":" ++ (jstr sha ++ (lit ",\"size\":" ++ (natDigits size ++ 125 :: t))))) =
      some (jstr sha ++ (lit ",\"size\":" ++ (natDigits size ++ 125 :: t))) from by
    rw [expectLit]; simp [expectLit_self]]
  rw [optBind_some, parseJStr_jstr, optBind_some]
  rw [expectLit_self, optBind_some]
  rw [parseNatNum_natDigits _ _ (by intro b hb; simp at hb; omega), optBind_some]
  rw [show expectLit [125] (125 :: t) = some t from by simp [expectLit], optBind_some]


theorem jstr_ne_nil (s : Bytes) : jstr s ≠ [] := by simp [jstr]

theorem serFilesInner_length_ge (fs : List (Bytes × FileEntry)) :
    fs.length ≤ (serFilesInner fs).length := by
  induction fs with
  | nil => simp [serFilesInner]
  | cons kv rest ih =>
    cases rest with
    | nil => simp [serFilesInner, jstr]
    | cons kv2 r2 =>
      rw [serFilesInner]
      simp only [List.length_cons, List.length_append, jstr]
      simp at ih ⊢
      omega

theorem expectLit_single (b : Nat) (t : Bytes) : expectLit [b] (b :: t) = some t := by
  simp [expectLit]

theorem parseFilesAux_serFilesInner :
    ∀ (fs : List (Bytes × FileEntry)) (fuel : Nat) (t : Bytes), fs ≠ [] → fs.length ≤ fuel →
      parseFilesAux fuel (serFilesInner fs ++ 125 :: t) = some (fs, t) := by
  intro fs
  induction fs with
  | nil => intro fuel t h; exact absurd rfl h
  | cons kv rest ih =>
    intro fuel t _ hlen
    cases fuel with
    | zero => simp at hlen
    | succ f =>
      cases rest with
      | nil =>
        rw [serFilesInner]
        simp only [List.cons_append, List.append_assoc, List.singleton_append, List.nil_append]
        rw [parseFilesAux]
        simp [parseJStr_jstr, optBind_some, parseEntry_serEntry, expectLit_single]
      | cons kv2 r2 =>
        rw [serFilesInner]
        simp only [List.cons_append, List.append_assoc, List.singleton_append, List.nil_append]
        rw [parseFilesAux]
        simp [parseJStr_jstr, optBind_some, parseEntry_serEntry, expectLit_single,
          ih f t (by simp) (by simp at hlen ⊢; omega)]

theorem parseFiles_serFiles (fs : List (Bytes × FileEntry)) (t : Bytes) :
    parseFiles (serFiles fs ++ t) = some (fs, t) := by
  cases fs with
  | nil =>
    rw [serFiles, serFilesInner]
    simp only [List.cons_append, List.nil_append, List.singleton_append]
    rw [parseFiles]
    norm_num
  | cons kv rest =>
    have hex : ∃ u, serFilesInner (kv :: rest) = 34 :: u := by
      cases rest with
      | nil =>
        exact ⟨((kv.1.map escByte).flatten ++ [34]) ++ 58 :: serEntry kv.2,
          by rw [serFilesInner, jstr]; simp⟩
      | cons c cs =>
        exact ⟨((kv.1.map escByte).flatten ++ [34]) ++
            58 :: (serEntry kv.2 ++ 44 :: serFilesInner (c :: cs)),
          by rw [serFilesInner, jstr]; simp⟩
    obtain ⟨u, hu⟩ := hex
    have hlen : (kv :: rest).length ≤ u.length + 1 := by
      have h1 := serFilesInner_length_ge (kv :: rest)
      rw [hu] at h1
      simpa using h1
    rw [serFiles, hu]
    simp only [List.cons_append, List.append_assoc, List.singleton_append, List.nil_append]
    rw [parseFiles]
    norm_num
    have key := parseFilesAux_serFilesInner (kv :: rest) ((34 :: (u ++ 125 :: t)).length) t
      (by simp) (by simp at hlen ⊢; omega)
    rw [hu] at key
    simp only [List.cons_append, List.append_assoc, List.singleton_append] at key
    simpa using key


theorem expectLit_cons_self (b : Nat) (p s : Bytes) :
    expectLit (b :: p) (b :: (p ++ s)) = some s := by
  rw [expectLit]
  simp [expectLit_self]

theorem parseManifest_serManifest (m : DpackManifest) :
    parseManifest (serManifest m) = some m := by
  obtain ⟨v1, v2, v3, v4, fs, v6⟩ := m
  rw [parseManifest, serManifest]
  simp only [List.cons_append, List.append_assoc, List.singleton_append, List.nil_append]
  rw [expectLit_cons_self, optBind_some, parseJStr_jstr, optBind_some,
    expectLit_self, optBind_some, parseJStr_jstr, optBind_some,
    expectLit_self, optBind_some, parseJStr_jstr, optBind_some,
    expectLit_self, optBind_some, parseJStr_jstr, optBind_some,
    expectLit_self, optBind_some, parseFiles_serFiles, optBind_some,
    expectLit_self, optBind_some, parseJStr_jstr, optBind_some]
  norm_num


/-! ## Lemmas: payload framing round-trip -/

theorem readU32_le32 (n : Nat) (rest : Bytes) (h : n < 4294967296) :
    readU32 (le32 n ++ rest) = .ok (n, rest) := by
  simp only [le32, List.cons_append, List.nil_append, readU32]
  congr 1
  simp
  omega

theorem readU64_le64 (n : Nat) (rest : Bytes) (h : n < 18446744073709551616) :
    readU64 (le64 n ++ rest) = .ok (n, rest) := by
  simp only [le64, List.cons_append, List.nil_append, readU64]
  congr 1
  simp
  omega

theorem readChunk_exact (xs rest : Bytes) :
    readChunk xs.length (xs ++ rest) = .ok (xs, rest) := by
  rw [readChunk, if_neg (by simp), List.take_left, List.drop_left]

theorem exceptBind_ok (a : α) (f : α → Except ε β) : (Except.ok a >>= f) = f a := rfl

theorem decodeFiles_encode (files : List (Bytes × Bytes)) (rest : Bytes)
    (h : ∀ pc ∈ files, isValidUtf8 pc.1 = true ∧ pc.1.length < 4294967296 ∧
      pc.2.length < 18446744073709551616) :
    decodeFiles files.length
      ((files.map fun pc => le32 pc.1.length ++ (pc.1 ++ (le64 pc.2.length ++ pc.2))).flatten ++
        rest) = .ok files := by
  induction files with
  | nil => simp [decodeFiles]
  | cons pc fs ih =>
    obtain ⟨hv, hp, hc⟩ := h pc (by simp)
    rw [List.length_cons, List.map_cons, List.flatten_cons]
    simp only [List.append_assoc]
    rw [decodeFiles]
    simp only [readU32_le32 _ _ hp, exceptBind_ok, readChunk_exact, hv, if_pos,
      readU64_le64 _ _ hc, ih (fun x hx => h x (by simp [hx]))]

theorem decode_encode_payload (mj : Bytes) (files : List (Bytes × Bytes))
    (hm : mj.length < 4294967296) (hn : files.length < 4294967296)
    (h : ∀ pc ∈ files, isValidUtf8 pc.1 = true ∧ pc.1.length < 4294967296 ∧
      pc.2.length < 18446744073709551616) :
    decode_payload (encode_payload mj files) = .ok (mj, files) := by
  rw [decode_payload, encode_payload]
  simp only [List.append_assoc]
  rw [show (files.map fun pc => le32 pc.1.length ++ (pc.1 ++ (le64 pc.2.length ++ pc.2))).flatten =
      (files.map fun pc => le32 pc.1.length ++ (pc.1 ++ (le64 pc.2.length ++ pc.2))).flatten ++
        ([] : Bytes) by simp]
  simp only [readU32_le32 _ _ hm, exceptBind_ok, readChunk_exact,
    readU32_le32 _ _ hn, decodeFiles_encode files [] h]


theorem compressBlock_length (h : List Nat) (b : Bytes) : (compressBlock h b).length = 8 := by
  simp [compressBlock]

theorem foldl_compressBlock_length (bs : List Bytes) :
    ∀ init : List Nat, (bs.foldl compressBlock init).length = 8 ∨ bs = [] := by
  induction bs with
  | nil => intro init; right; rfl
  | cons b rest ih =>
    intro init
    left
    rcases ih (compressBlock init b) with h | h
    · simpa using h
    · simp [h, compressBlock_length]

theorem sha256_length (msg : Bytes) : (sha256 msg).length = 32 := by
  rw [sha256]
  have hflat : ∀ l : List Nat, ((l.map be32).flatten).length = 4 * l.length := by
    intro l
    induction l with
    | nil => rfl
    | cons x xs ih => simp [be32, ih]; omega
  rw [hflat]
  have hchunks : chunks64 (shaPad msg).length (shaPad msg) ≠ [] := by
    have : (shaPad msg).length ≠ 0 := by simp [shaPad]
    cases h : (shaPad msg).length with
    | zero => exact absurd h this
    | succ k =>
      cases hp : shaPad msg with
      | nil => rw [hp] at h; simp at h
      | cons a as => simp [chunks64]
  rcases foldl_compressBlock_length (chunks64 (shaPad msg).length (shaPad msg)) h256init with h | h
  · rw [h]
  · exact absurd h hchunks

theorem le64_foldr (n : Nat) (h : n < 18446744073709551616) :
    (le64 n).foldr (fun b acc => b + 256 * acc) 0 = n := by
  simp [le64]
  omega

theorem to_bytes_length (h : CpackHeader) (hs : h.payload_sha256.length = 32) :
    h.to_bytes.length = 48 := by
  simp [CpackHeader.to_bytes, le64, hs]

theorem from_bytes_to_bytes (sha : Bytes) (n : Nat) (tail : Bytes)
    (hs : sha.length = 32) (hn : n < 18446744073709551616) :
    CpackHeader.from_bytes ((CpackHeader.mk 1 1 sha n).to_bytes ++ tail) =
      .ok (CpackHeader.mk 1 1 sha n) := by
  rw [CpackHeader.to_bytes]
  simp only [List.cons_append, List.append_assoc]
  rw [CpackHeader.from_bytes]
  rw [if_neg (by simp [le64, hs]; omega)]
  rw [if_neg (by simp [List.take])]
  norm_num
  constructor
  · -- payload_sha256 = (drop 8).take 32
    show (sha ++ (le64 n ++ tail)).take 32 = sha
    rw [← hs, List.take_left]
  · -- compressed_size
    show ((sha ++ (le64 n ++ tail)).drop 32 |>.take 8).foldr _ 0 = n
    rw [show (sha ++ (le64 n ++ tail)).drop 32 = le64 n ++ tail from by
      rw [← hs, List.drop_left]]
    rw [show (le64 n ++ tail).take 8 = le64 n from by
      rw [show (8 : Nat) = (le64 n).length from by simp [le64], List.take_left]]
    exact le64_foldr n hn


theorem compress_dpack_eq (codec : Codec) (m : DpackManifest)
    (dataWalk : List (Bytes × Bytes)) :
    compress_dpack codec m dataWalk =
      ((CpackHeader.mk 1 1 (sha256 (encode_payload (serManifest m) (toSortedMap dataWalk)))
          (codec.enc (encode_payload (serManifest m) (toSortedMap dataWalk))).length).to_bytes ++
        codec.enc (encode_payload (serManifest m) (toSortedMap dataWalk)),
       hexEncode (sha256 (encode_payload (serManifest m) (toSortedMap dataWalk)))) := by
  unfold compress_dpack
  exact rfl

theorem decompress_header_ok (codec : Codec) (payload mj : Bytes)
    (files : List (Bytes × Bytes))
    (hz : codec.dec (codec.enc payload) = some payload)
    (hzl : (codec.enc payload).length < 18446744073709551616)
    (hd : decode_payload payload = .ok (mj, files)) :
    decompress_cpack codec
      ((CpackHeader.mk 1 1 (sha256 payload) (codec.enc payload).length).to_bytes ++
        codec.enc payload) = .ok (mj, files, hexEncode (sha256 payload)) := by
  rw [decompress_cpack]
  have hhs : (sha256 payload).length = 32 := sha256_length payload
  rw [if_neg (by simp [CpackHeader.to_bytes, le64, hhs]; omega)]
  rw [from_bytes_to_bytes _ _ _ hhs hzl, exceptBind_ok]
  rw [show ((CpackHeader.mk 1 1 (sha256 payload) (codec.enc payload).length).to_bytes ++
      codec.enc payload).drop 48 = codec.enc payload from by
    rw [show (48 : Nat) =
        (CpackHeader.mk 1 1 (sha256 payload) (codec.enc payload).length).to_bytes.length
      from (to_bytes_length _ hhs).symm, List.drop_left]]
  rw [if_neg (by simp)]
  rw [hz]
  simp only [hd]
  rw [if_neg (by simp)]
  exact rfl

theorem decompress_compress_core (codec : Codec) (m : DpackManifest)
    (dataWalk : List (Bytes × Bytes))
    (hz : codec.dec (codec.enc (encode_payload (serManifest m) (toSortedMap dataWalk))) =
      some (encode_payload (serManifest m) (toSortedMap dataWalk)))
    (hzl : (codec.enc (encode_payload (serManifest m) (toSortedMap dataWalk))).length <
      18446744073709551616)
    (hm : (serManifest m).length < 4294967296)
    (hn : (toSortedMap dataWalk).length < 4294967296)
    (h : ∀ pc ∈ toSortedMap dataWalk, isValidUtf8 pc.1 = true ∧ pc.1.length < 4294967296 ∧
      pc.2.length < 18446744073709551616) :
    decompress_cpack codec (compress_dpack codec m dataWalk).1 =
      .ok (serManifest m, toSortedMap dataWalk, (compress_dpack codec m dataWalk).2) := by
  rw [compress_dpack_eq]
  dsimp only
  exact decompress_header_ok codec (encode_payload (serManifest m) (toSortedMap dataWalk))
    (serManifest m) (toSortedMap dataWalk) hz hzl (decode_encode_payload _ _ hm hn h)


/-! ## Lemmas: the sorted-map model of `BTreeMap` -/

theorem bytesLt_irrefl (a : Bytes) : bytesLt a a = false := by
  induction a with
  | nil => rfl
  | cons x xs ih => simp [bytesLt, ih]

theorem bytesLt_cons (x y : Nat) (xs ys : Bytes) :
    bytesLt (x :: xs) (y :: ys) =
      if x < y then true else if y < x then false else bytesLt xs ys := rfl

theorem bytesLt_trans {a b c : Bytes} (h1 : bytesLt a b = true) (h2 : bytesLt b c = true) :
    bytesLt a c = true := by
  induction a generalizing b c with
  | nil =>
    cases b with
    | nil => simp [bytesLt] at h1
    | cons y ys =>
      cases c with
      | nil => simp [bytesLt] at h2
      | cons z zs => rfl
  | cons x xs ih =>
    cases b with
    | nil => simp [bytesLt] at h1
    | cons y ys =>
      cases c with
      | nil => simp [bytesLt] at h2
      | cons z zs =>
        rw [bytesLt_cons] at h1 h2 ⊢
        by_cases hxy : x < y
        · by_cases hyz : y < z
          · rw [if_pos (by omega)]
          · by_cases hzy : z < y
            · rw [if_neg hyz, if_pos hzy] at h2; simp at h2
            · rw [if_pos (by omega)]
        · by_cases hyx : y < x
          · rw [if_neg hxy, if_pos hyx] at h1; simp at h1
          · rw [if_neg hxy, if_neg hyx] at h1
            by_cases hyz : y < z
            · rw [if_pos (by omega)]
            · by_cases hzy : z < y
              · rw [if_neg hyz, if_pos hzy] at h2; simp at h2
              · rw [if_neg hyz, if_neg hzy] at h2
                rw [if_neg (by omega), if_neg (by omega)]
                exact ih h1 h2

theorem bytesLt_asymm {a b : Bytes} (h : bytesLt a b = true) : bytesLt b a = false := by
  by_contra hc
  have h2 : bytesLt b a = true := by
    cases hb : bytesLt b a
    · exact absurd hb hc
    · rfl
  have := bytesLt_trans h h2
  rw [bytesLt_irrefl] at this
  simp at this

theorem bytesLt_conn {a b : Bytes} (hne : a ≠ b) (h : bytesLt a b = false) :
    bytesLt b a = true := by
  induction a generalizing b with
  | nil =>
    cases b with
    | nil => exact absurd rfl hne
    | cons y ys => simp [bytesLt] at h
  | cons x xs ih =>
    cases b with
    | nil => rfl
    | cons y ys =>
      rw [bytesLt_cons] at h ⊢
      by_cases hxy : x < y
      · rw [if_pos hxy] at h; simp at h
      · by_cases hyx : y < x
        · rw [if_pos hyx]
        · rw [if_neg hxy, if_neg hyx] at h
          have hx : x = y := by omega
          rw [if_neg (by omega), if_neg (by omega)]
          exact ih (fun heq => hne (by rw [hx, heq])) h

theorem mem_insertSorted {kv : Bytes × α} {k : Bytes} {v : α} {m : List (Bytes × α)}
    (h : kv ∈ insertSorted k v m) : kv = (k, v) ∨ kv ∈ m := by
  induction m with
  | nil =>
    simp [insertSorted] at h
    exact Or.inl h
  | cons p rest ih =>
    rw [insertSorted] at h
    split_ifs at h with h1 h2
    · simp only [List.mem_cons] at h
      rcases h with h | h | h
      · exact Or.inl h
      · exact Or.inr (by simp [h])
      · exact Or.inr (by simp [h])
    · simp only [List.mem_cons] at h
      rcases h with h | h
      · exact Or.inl h
      · exact Or.inr (by simp [h])
    · simp only [List.mem_cons] at h
      rcases h with h | h
      · exact Or.inr (by simp [h])
      · rcases ih h with h2 | h2
        · exact Or.inl h2
        · exact Or.inr (by simp [h2])

theorem insertSorted_append_of_lt {k : Bytes} {v : α} {m : List (Bytes × α)}
    (h : ∀ kv ∈ m, bytesLt kv.1 k = true) : insertSorted k v m = m ++ [(k, v)] := by
  induction m with
  | nil => rfl
  | cons p rest ih =>
    have hp := h p (by simp)
    rw [insertSorted]
    rw [if_neg (by rw [bytesLt_asymm hp]; simp)]
    rw [if_neg (by intro he; rw [he, bytesLt_irrefl] at hp; simp at hp)]
    rw [ih (fun kv hkv => h kv (by simp [hkv]))]
    simp


theorem entLt_trans {a b c : Bytes × α} (h1 : entLt a b) (h2 : entLt b c) : entLt a c :=
  bytesLt_trans h1 h2

instance : IsTrans (Bytes × α) entLt := ⟨fun _ _ _ => entLt_trans⟩

theorem mem_foldl_insert {l : List (Bytes × α)} :
    ∀ {acc : List (Bytes × α)} {kv : Bytes × α},
      kv ∈ l.foldl (fun m p => insertSorted p.1 p.2 m) acc → kv ∈ acc ∨ kv ∈ l := by
  induction l with
  | nil => intro acc kv h; exact Or.inl h
  | cons p rest ih =>
    intro acc kv h
    rcases ih h with h1 | h1
    · rcases mem_insertSorted h1 with h2 | h2
      · exact Or.inr (by simp [h2])
      · exact Or.inl h2
    · exact Or.inr (by simp [h1])

theorem mem_toSortedMap {l : List (Bytes × α)} {kv : Bytes × α}
    (h : kv ∈ toSortedMap l) : kv ∈ l := by
  rcases @mem_foldl_insert _ l [] kv h with h1 | h1
  · simp at h1
  · exact h1

theorem pairwise_insertSorted {m : List (Bytes × α)} (k : Bytes) (v : α)
    (h : List.Pairwise entLt m) : List.Pairwise entLt (insertSorted k v m) := by
  induction m with
  | nil => simp [insertSorted, List.pairwise_cons]
  | cons p rest ih =>
    rw [List.pairwise_cons] at h
    obtain ⟨hp, hrest⟩ := h
    rw [insertSorted]
    split_ifs with h1 h2
    · rw [List.pairwise_cons]
      refine ⟨?_, by rw [List.pairwise_cons]; exact ⟨hp, hrest⟩⟩
      intro b hb
      simp only [List.mem_cons] at hb
      rcases hb with hb | hb
      · rw [hb]; exact h1
      · exact entLt_trans h1 (hp b hb)
    · rw [List.pairwise_cons]
      refine ⟨?_, hrest⟩
      intro b hb
      show bytesLt (k, v).1 b.1 = true
      rw [show (k, v).1 = p.1 from h2]
      exact hp b hb
    · rw [List.pairwise_cons]
      refine ⟨?_, ih hrest⟩
      intro b hb
      rcases mem_insertSorted hb with h3 | h3
      · rw [h3]
        show bytesLt p.1 k = true
        refine bytesLt_conn h2 ?_
        cases hbb : bytesLt k p.1
        · rfl
        · exact absurd hbb h1
      · exact hp b h3


theorem pairwise_foldl_insert (l : List (Bytes × α)) :
    ∀ acc : List (Bytes × α), List.Pairwise entLt acc →
      List.Pairwise entLt (l.foldl (fun m p => insertSorted p.1 p.2 m) acc) := by
  induction l with
  | nil => intro acc h; exact h
  | cons p rest ih =>
    intro acc h
    exact ih _ (pairwise_insertSorted p.1 p.2 h)

theorem pairwise_toSortedMap (l : List (Bytes × α)) : List.Pairwise entLt (toSortedMap l) :=
  pairwise_foldl_insert l [] (by simp)

theorem lookupMap_of_mem {m : List (Bytes × α)} {k : Bytes} {v : α}
    (hpw : List.Pairwise entLt m) (h : (k, v) ∈ m) : lookupMap k m = some v := by
  induction m with
  | nil => simp at h
  | cons p rest ih =>
    rw [List.pairwise_cons] at hpw
    simp only [List.mem_cons] at h
    rcases h with h | h
    · rw [lookupMap, if_pos (by rw [← h])]
      rw [← h]
    · have hlt : bytesLt p.1 k = true := hpw.1 (k, v) h
      rw [lookupMap, if_neg ?_]
      · exact ih hpw.2 h
      · intro he
        rw [he, bytesLt_irrefl] at hlt
        simp at hlt

theorem keysSorted_of_pairwise {l : List (Bytes × α)} (h : List.Pairwise entLt l) :
    KeysSorted l := List.Pairwise.chain' h

theorem toSortedMap_sorted_id {l : List (Bytes × α)} (h : KeysSorted l) :
    toSortedMap l = l := by
  have hpw : List.Pairwise entLt l := List.chain'_iff_pairwise.1 h
  clear h
  induction l using List.reverseRecOn with
  | nil => rfl
  | append_singleton l x ih =>
    rw [toSortedMap, List.foldl_append, List.foldl_cons, List.foldl_nil]
    rw [show l.foldl (fun m kv => insertSorted kv.1 kv.2 m) [] = toSortedMap l from rfl]
    have hpl : List.Pairwise entLt l := hpw.sublist (by simp)
    rw [ih hpl, insertSorted_append_of_lt]
    intro kv hkv
    have := (List.pairwise_append.1 hpw).2.2 kv hkv x (by simp)
    exact this


theorem insertSorted_map (g : α → β) (k : Bytes) (v : α) (m : List (Bytes × α)) :
    (insertSorted k v m).map (fun pc => (pc.1, g pc.2)) =
      insertSorted k (g v) (m.map fun pc => (pc.1, g pc.2)) := by
  induction m with
  | nil => rfl
  | cons p rest ih =>
    rw [insertSorted, List.map_cons, insertSorted]
    split_ifs with h1 h2
    · simp
    · simp [h2]
    · rw [List.map_cons, ih]

theorem foldl_insert_map (g : α → β) (l : List (Bytes × α)) :
    ∀ acc : List (Bytes × α),
      (l.foldl (fun m pc => insertSorted pc.1 pc.2 m) acc).map (fun pc => (pc.1, g pc.2)) =
        l.foldl (fun m pc => insertSorted pc.1 (g pc.2) m)
          (acc.map fun pc => (pc.1, g pc.2)) := by
  induction l with
  | nil => intro acc; rfl
  | cons p rest ih =>
    intro acc
    rw [List.foldl_cons, List.foldl_cons, ih, insertSorted_map]

theorem toSortedMap_map (g : α → β) (l : List (Bytes × α)) :
    (toSortedMap l).map (fun pc => (pc.1, g pc.2)) =
      toSortedMap (l.map fun pc => (pc.1, g pc.2)) := by
  rw [toSortedMap, foldl_insert_map]
  rw [toSortedMap]
  rw [List.map_nil]
  have : ∀ (l2 : List (Bytes × α)) (acc : List (Bytes × β)),
      l2.foldl (fun m pc => insertSorted pc.1 (g pc.2) m) acc =
        (l2.map fun pc => (pc.1, g pc.2)).foldl (fun m kv => insertSorted kv.1 kv.2 m) acc := by
    intro l2
    induction l2 with
    | nil => intro acc; rfl
    | cons p rest ih => intro acc; rw [List.foldl_cons, List.map_cons, List.foldl_cons, ih]
  exact this l []


/-! ## Lemmas: glob matching -/

theorem lit_starslash : lit "**/" = [42, 42, 47] := by decide

theorem slashTails_suffix {p t : Bytes} (h : t ∈ slashTails p) : t <:+ p := by
  induction p with
  | nil => simp [slashTails] at h
  | cons b rest ih =>
    rw [slashTails] at h
    by_cases hb : b = 47
    · rw [if_pos hb] at h
      simp only [List.mem_cons] at h
      rcases h with h | h
      · rw [h]; exact ⟨[b], rfl⟩
      · exact (ih h).trans ⟨[b], rfl⟩
    · rw [if_neg hb] at h
      exact (ih h).trans ⟨[b], rfl⟩

theorem globMatchF_literal {X : Bytes} (hX : X.count 42 = 0) (f : Nat) (q : Bytes) :
    globMatchF (f + 1) X q = some (X == q) := by
  have h42 : ¬(42 ∈ X) := by
    rw [← List.count_pos_iff]
    omega
  rw [globMatchF]
  by_cases he : X = q
  · rw [if_pos he]
    simp [he]
  · rw [if_neg he]
    rw [if_neg (by
      intro hc
      exact h42 (List.take_subset 3 X (by rw [hc]; simp)))]
    rw [if_neg (by
      intro hc
      rw [List.isSuffixOf_iff_suffix] at hc
      exact h42 (hc.subset (by simp)))]
    rw [if_neg (by
      intro hc
      exact h42 (List.elem_iff.1 hc))]
    simp [he]

theorem foldGlob_literal {X : Bytes} (hX : X.count 42 = 0) (f : Nat) (ts : List Bytes) :
    ∀ acc : Option Bool,
      (ts.foldl (fun acc t =>
        match acc with
        | none => none
        | some true => some true
        | some false => globMatchF (f + 1) X t) acc) =
      match acc with
      | none => none
      | some true => some true
      | some false => some (ts.any fun t => X == t) := by
  induction ts with
  | nil =>
    intro acc
    cases acc with
    | none => rfl
    | some b => cases b <;> simp
  | cons t ts' ih =>
    intro acc
    cases acc with
    | none =>
      rw [List.foldl_cons]
      exact ih none
    | some b =>
      cases b with
      | true =>
        rw [List.foldl_cons]
        exact ih (some true)
      | false =>
        rw [List.foldl_cons]
        show (ts'.foldl _ (globMatchF (f + 1) X t)) = _
        rw [globMatchF_literal hX]
        cases hxt : (X == t) with
        | true =>
          rw [ih (some true)]
          simp [List.any_cons, hxt]
        | false =>
          rw [ih (some false)]
          simp [List.any_cons, hxt]


theorem glob_match_dstar_literal (X p : Bytes) (hX : X.count 42 = 0) :
    glob_match (lit "**/" ++ X) p = some (X.isSuffixOf p) := by
  rw [glob_match, lit_starslash]
  rw [show ([42, 42, 47] ++ X : Bytes).length + 1 = (X.length + 3) + 1 from by
    simp only [List.length_append, List.length_cons, List.length_nil]; omega]
  rw [globMatchF]
  by_cases hpe : [42, 42, 47] ++ X = p
  · rw [if_pos hpe]
    have hs : X.isSuffixOf p = true := by
      rw [List.isSuffixOf_iff_suffix, ← hpe]
      exact List.suffix_append [42, 42, 47] X
    rw [hs]
  · rw [if_neg hpe]
    rw [if_pos (show ([42, 42, 47] ++ X : Bytes).take 3 = [42, 42, 47] from
      List.take_left [42, 42, 47] X)]
    dsimp only
    rw [show ([42, 42, 47] ++ X : Bytes).drop 3 = X from List.drop_left [42, 42, 47] X]
    by_cases hs : X.isSuffixOf p = true
    · rw [if_pos hs, hs]
    · rw [if_neg hs]
      have hsf : X.isSuffixOf p = false := by
        cases h : X.isSuffixOf p
        · rfl
        · exact absurd h hs
      rw [show (X.length + 3) = (X.length + 2) + 1 from by omega]
      rw [foldGlob_literal hX]
      have hany : ((slashTails p).any fun t => X == t) = false := by
        rw [List.any_eq_false]
        intro t ht
        intro hxt
        have : X <:+ p := by
          rw [show X = t from by simpa using hxt]
          exact slashTails_suffix ht
        rw [← @List.isSuffixOf_iff_suffix _ _ _ X p] at this
        rw [this] at hsf
        simp at hsf
      rw [hany]
      rw [globMatchF_literal hX]
      rw [hsf]
      have : (X == p) = false := by
        have : X ≠ p := by
          intro he
          rw [he] at hsf
          rw [show p.isSuffixOf p = true from by
            rw [List.isSuffixOf_iff_suffix]] at hsf
          simp at hsf
        simpa using this
      rw [this]


theorem splitByte_ne_nil (sep : Nat) (l : Bytes) : splitByte sep l ≠ [] := by
  cases l with
  | nil => simp [splitByte]
  | cons b r =>
    rw [splitByte]
    split_ifs
    · simp
    · cases h : splitByte sep r with
      | nil => simp
      | cons s ss => simp

theorem splitByte_length (sep : Nat) (l : Bytes) :
    (splitByte sep l).length = l.count sep + 1 := by
  induction l with
  | nil => simp [splitByte]
  | cons b r ih =>
    rw [splitByte]
    by_cases hb : b = sep
    · rw [if_pos hb]
      simp [hb, ih, List.count_cons]
    · rw [if_neg hb]
      cases h : splitByte sep r with
      | nil => exact absurd h (splitByte_ne_nil sep r)
      | cons s ss =>
        rw [h] at ih
        simp at ih
        simp [List.count_cons, hb, ih]
        try omega

theorem glob_match_multistar (pattern : Bytes) (h2 : 2 ≤ pattern.count 42)
    (hpre : pattern.take 3 ≠ [42, 42, 47]) (hsuf : ¬([47, 42, 42].isSuffixOf pattern = true)) :
    ∀ path : Bytes, glob_match pattern path = some (pattern == path) := by
  intro path
  rw [glob_match, globMatchF]
  by_cases hpe : pattern = path
  · rw [if_pos hpe]
    simp [hpe]
  · rw [if_neg hpe, if_neg hpre, if_neg hsuf]
    rw [if_pos (List.elem_iff.2 (by rw [← List.count_pos_iff]; omega))]
    have hlen : 3 ≤ (splitByte 42 pattern).length := by
      rw [splitByte_length]
      omega
    obtain ⟨a, rest1, hsp⟩ : ∃ a rest1, splitByte 42 pattern = a :: rest1 := by
      cases h : splitByte 42 pattern with
      | nil => exact absurd h (splitByte_ne_nil 42 pattern)
      | cons a r => exact ⟨a, r, rfl⟩
    obtain ⟨b, rest2, hsp2⟩ : ∃ b rest2, rest1 = b :: rest2 := by
      cases h : rest1 with
      | nil => rw [hsp, h] at hlen; simp at hlen
      | cons b r => exact ⟨b, r, rfl⟩
    obtain ⟨c, rest3, hsp3⟩ : ∃ c rest3, rest2 = c :: rest3 := by
      cases h : rest2 with
      | nil => rw [hsp, hsp2, h] at hlen; simp at hlen
      | cons c r => exact ⟨c, r, rfl⟩
    rw [hsp, hsp2, hsp3]
    have : (pattern == path) = false := by simpa using hpe
    rw [this]


/-! ## Lemmas: pack, verify, unfurl -/

/-- The value-to-entry map applied when packing. -/
def toEntry (c : Bytes) : FileEntry := ⟨compute_sha256 c, c.length⟩

theorem packWalk_all_allowed (pol : Policy) (repo : List (Bytes × Bytes)) :
    ∀ acc, (∀ pc ∈ repo, pol.is_allowed pc.1 = some true) →
      packWalk pol repo acc = some
        (repo.foldl (fun m pc => insertSorted pc.1 (toEntry pc.2) m) acc.1,
         repo.foldl (fun m pc => insertSorted pc.1 pc.2 m) acc.2) := by
  induction repo with
  | nil => intro acc h; rfl
  | cons pc rest ih =>
    intro acc h
    rw [packWalk, h pc (by simp)]
    dsimp only
    rw [ih _ (fun x hx => h x (by simp [hx]))]
    simp [toEntry]

theorem checkPinning_map (D : List (Bytes × Bytes)) (hpw : List.Pairwise entLt D) :
    ∀ E : List (Bytes × Bytes), (∀ pc ∈ E, pc ∈ D) →
      checkPinning D (E.map fun pc => (pc.1, toEntry pc.2)) = (true, []) := by
  intro E
  induction E with
  | nil => intro _; rfl
  | cons pc rest ih =>
    intro h
    rw [List.map_cons, checkPinning, lookupMap_of_mem hpw (h pc (by simp))]
    dsimp only
    rw [if_neg (by simp [toEntry])]
    exact ih (fun x hx => h x (by simp [hx]))

theorem unfurlFiles_map (D : List (Bytes × Bytes)) (hpw : List.Pairwise entLt D) :
    ∀ (E : List (Bytes × Bytes)) (t0 : List (Bytes × Bytes)), (∀ pc ∈ E, pc ∈ D) →
      unfurlFiles D (E.map fun pc => (pc.1, toEntry pc.2)) t0 =
        (none, E.foldl (fun t pc => insertSorted pc.1 pc.2 t) t0, E.length) := by
  intro E
  induction E with
  | nil => intro t0 _; rfl
  | cons pc rest ih =>
    intro t0 h
    rw [List.map_cons, unfurlFiles, lookupMap_of_mem hpw (h pc (by simp))]
    dsimp only
    rw [if_neg (by simp [toEntry])]
    rw [ih _ (fun x hx => h x (by simp [hx]))]
    simp


theorem packFiles_eq (repo : List (Bytes × Bytes)) :
    repo.foldl (fun m pc => insertSorted pc.1 (toEntry pc.2) m) [] =
      (toSortedMap repo).map fun pc => (pc.1, toEntry pc.2) := by
  rw [toSortedMap]
  exact (foldl_insert_map toEntry repo []).symm

/-- The manifest `pack_repo` builds for a repo walk (timestamp left empty). -/
def packedManifest (repo : List (Bytes × Bytes)) (sr : Bytes) (seed : Seed) : DpackManifest :=
  { schema_version := lit "1.0", root_2i_seed_fingerprint := seed.fingerprint,
    created_at := [], source_root := sr,
    files := (toSortedMap repo).map fun pc => (pc.1, toEntry pc.2),
    pack_hash := compute_pack_hash ((toSortedMap repo).map fun pc => (pc.1, toEntry pc.2)) }

theorem verify_pack_packed (repo : List (Bytes × Bytes)) (sr : Bytes) (seed : Seed) :
    (verify_pack ⟨packedManifest repo sr seed, toSortedMap repo⟩ seed).passed = true := by
  have hg3 := checkPinning_map (toSortedMap repo) (pairwise_toSortedMap repo)
    (toSortedMap repo) (fun pc h => h)
  rw [verify_pack]
  dsimp only [packedManifest]
  rw [hg3]
  simp [AuditReceipt.new, DpackManifest.verify_integrity]

theorem unfurl_pack_packed (repo : List (Bytes × Bytes)) (sr : Bytes) (seed : Seed) :
    (unfurl_pack ⟨packedManifest repo sr seed, toSortedMap repo⟩ seed).2 =
      some (toSortedMap repo) := by
  rw [unfurl_pack]
  rw [verify_pack_packed repo sr seed]
  rw [if_neg (by simp)]
  dsimp only [packedManifest]
  rw [unfurlFiles_map (toSortedMap repo) (pairwise_toSortedMap repo)
    (toSortedMap repo) [] (fun pc h => h)]
  dsimp only
  rw [show (toSortedMap repo).foldl (fun t pc => insertSorted pc.1 pc.2 t) [] =
      toSortedMap (toSortedMap repo) from rfl]
  rw [toSortedMap_sorted_id (keysSorted_of_pairwise (pairwise_toSortedMap repo))]

theorem shape_equiv_toSortedMap (repo : List (Bytes × Bytes)) :
    verify_shape_equivalence repo (toSortedMap repo) = true := by
  rw [verify_shape_equivalence]
  rw [toSortedMap_map compute_sha256 repo]
  rw [toSortedMap_sorted_id (keysSorted_of_pairwise (pairwise_toSortedMap
    (repo.map fun pc => (pc.1, compute_sha256 pc.2))))]
  exact beq_self_eq_true _


theorem packWalk_mem_allowed (pol : Policy) (repo : List (Bytes × Bytes)) :
    ∀ acc F D, packWalk pol repo acc = some (F, D) →
      (∀ kv ∈ F, kv ∈ acc.1 ∨ pol.is_allowed kv.1 = some true) ∧
      (∀ kv ∈ D, kv ∈ acc.2 ∨ pol.is_allowed kv.1 = some true) := by
  induction repo with
  | nil =>
    intro acc F D h
    rw [packWalk] at h
    injection h with h
    constructor
    · intro kv hkv; exact Or.inl (by rw [h]; exact hkv)
    · intro kv hkv; exact Or.inl (by rw [h]; exact hkv)
  | cons pc rest ih =>
    intro acc F D h
    rw [packWalk] at h
    cases ha : pol.is_allowed pc.1 with
    | none => rw [ha] at h; simp at h
    | some b =>
      cases b with
      | false =>
        rw [ha] at h
        exact ih acc F D h
      | true =>
        rw [ha] at h
        have := ih _ F D h
        constructor
        · intro kv hkv
          rcases this.1 kv hkv with h1 | h1
          · rcases mem_insertSorted h1 with h2 | h2
            · right; rw [h2]; exact ha
            · exact Or.inl h2
          · exact Or.inr h1
        · intro kv hkv
          rcases this.2 kv hkv with h1 | h1
          · rcases mem_insertSorted h1 with h2 | h2
            · right; rw [h2]; exact ha
            · exact Or.inl h2
          · exact Or.inr h1

theorem anyGlob_false {pats : List Bytes} {path : Bytes}
    (h : anyGlob pats path = some false) :
    ∀ pat ∈ pats, glob_match pat path = some false := by
  induction pats with
  | nil => intro pat hp; simp at hp
  | cons q qs ih =>
    intro pat hp
    rw [anyGlob] at h
    cases hg : glob_match q path with
    | none => rw [hg] at h; simp at h
    | some b =>
      cases b with
      | true => rw [hg] at h; simp at h
      | false =>
        rw [hg] at h
        simp only [List.mem_cons] at hp
        rcases hp with hp | hp
        · rw [hp]; exact hg
        · exact ih h pat hp

theorem is_allowed_true_excl {pol : Policy} {path : Bytes}
    (h : pol.is_allowed path = some true) : anyGlob pol.exclude path = some false := by
  rw [Policy.is_allowed] at h
  cases ha : anyGlob pol.exclude path with
  | none => rw [ha] at h; simp at h
  | some b =>
    cases b with
    | true => rw [ha] at h; simp at h
    | false => rfl

theorem foldl_append_flatten (f : α → Bytes) (l : List α) :
    ∀ a : Bytes, l.foldl (fun acc x => acc ++ f x) a = a ++ (l.map f).flatten := by
  induction l with
  | nil => intro a; simp
  | cons x xs ih => intro a; simp [ih]

/-! ## Claim-level helper lemmas and concrete instances -/

/-- The identity codec: a `Codec` whose encoder is the identity and whose
decoder always succeeds, used to instantiate the zstd collaborator in
concrete evaluations. -/
def idCodec : Codec := ⟨fun b => b, fun b => some b⟩

instance : DecidableRel (@entLt α) := fun a b =>
  inferInstanceAs (Decidable (bytesLt a.1 b.1 = true))

theorem serManifest_head2 (m : DpackManifest) : (serManifest m).take 2 = [123, 34] := by
  rw [serManifest]
  rw [show lit "\"schema_version\":" = 34 :: lit "schema_version\":" from by decide]
  rfl

theorem serManifestPretty_head2 (m : DpackManifest) :
    (serManifestPretty m).take 2 = [123, 10] := by
  rw [serManifestPretty]
  rfl

theorem serManifest_ne_pretty (m : DpackManifest) : serManifest m ≠ serManifestPretty m := by
  intro h
  have h1 := serManifest_head2 m
  rw [h, serManifestPretty_head2] at h1
  exact absurd h1 (by decide)

theorem from_bytes_ok_len {data : Bytes} {hdr : CpackHeader}
    (h : CpackHeader.from_bytes data = .ok hdr) : ¬data.length < 48 := by
  intro hlt
  rw [CpackHeader.from_bytes, if_pos hlt] at h
  exact absurd h (by simp)

theorem foldl_hash_segments (l : List (Bytes × FileEntry)) :
    ∀ a : Bytes, l.foldl (fun acc kv => acc ++ kv.1 ++ [58] ++ kv.2.sha256 ++ [10]) a =
      a ++ (l.map fun kv => kv.1 ++ [58] ++ kv.2.sha256 ++ [10]).flatten := by
  induction l with
  | nil => intro a; simp
  | cons x xs ih => intro a; rw [List.foldl_cons, ih]; simp [List.append_assoc]

/-- A small manifest used to instantiate the compression claims. -/
def mC1 : DpackManifest := ⟨lit "1.0", lit "f", [], lit "r", [], compute_pack_hash []⟩

/-- A one-file data walk used to instantiate the round-trip claim. -/
def c2walk : List (Bytes × Bytes) := [(lit "d", [100])]

def c3seed : Seed := ⟨lit "s", lit "f"⟩

/-- A pack whose manifest carries an unknown schema version, so that gate
G0 fails while every other gate passes. -/
def c3dpack : DpackDir := ⟨⟨lit "2.0", lit "f", [], [], [], compute_pack_hash []⟩, []⟩

/-- A sorted two-file manifest used to instantiate the pack-hash claim. -/
def m4c : DpackManifest :=
  ⟨lit "1.0", lit "f", [], lit "r",
   [(lit "a", ⟨lit "h", 1⟩), (lit "b", ⟨lit "g", 2⟩)],
   compute_pack_hash [(lit "a", ⟨lit "h", 1⟩), (lit "b", ⟨lit "g", 2⟩)]⟩

/-- A 48-byte header announcing five payload bytes that are not there. -/
def c5hdr2 : CpackHeader := ⟨1, 1, List.replicate 32 0, 5⟩

def c5data2 : Bytes := c5hdr2.to_bytes

/-- A header whose recorded payload hash (all zeros) cannot match any
actual payload. -/
def c5hdr3 : CpackHeader := ⟨1, 1, List.replicate 32 0, 1⟩

def c5data3 : Bytes := c5hdr3.to_bytes ++ [7]

def c7seed : Seed := ⟨lit "s", lit "f"⟩

/-- A repository whose walk contains a `.git` file: the default policy
drops it, so the round trip does not restore the full tree. -/
def c7badRepo : List (Bytes × Bytes) := [(lit ".git", [48]), (lit "a", [65])]

def c8repo : List (Bytes × Bytes) := [(lit "a", [65])]

def c8seed : Seed := ⟨lit "s", lit "f"⟩

def c8files : List (Bytes × FileEntry) := [(lit "a", ⟨compute_sha256 [65], 1⟩)]

/-- The DPACK directory `pack_repo` produces for `c8repo`. -/
def c8dpack : DpackDir :=
  ⟨⟨lit "1.0", lit "f", [], lit "r", c8files, compute_pack_hash c8files⟩, c8repo⟩

/-- The receipt `pack_repo` produces for `c8repo`. -/
def c8receipt : AuditReceipt :=
  AuditReceipt.new (lit "pack") (lit "f") (some (compute_pack_hash c8files))
    [⟨lit "G0_SCHEMA", .Pass, lit "manifest schema v1.0"⟩,
     ⟨lit "G1_INTEGRITY", .Pass, lit "pack_hash=" ++ (compute_pack_hash c8files).take 16⟩,
     ⟨lit "G4_SEED_BINDING", .Pass, lit "seed_fp=" ++ (lit "f").take 16⟩,
     ⟨lit "G6_ORGASYSTEM_SHAPE", .Pass, natDigits 1 ++ lit " files packed"⟩,
     ⟨lit "G7_RELEASE_RECEIPT", .Pass, lit "manifest written"⟩]

/-! ## The claims -/

/-- C1 (corrected): the spec says the payload manifest is pretty-printed
identically to the on-disk `manifest.json`.  In the code the payload embeds
`serde_json::to_vec(&manifest)` — the canonical COMPACT serialization
(struct fields in declaration order, file keys sorted) — which is never
byte-identical to the pretty form: the cpack body is the compression of
`encode_payload (serManifest m) ...`, decoding the payload returns exactly
the compact bytes, and the compact and pretty serializations always
differ. -/
theorem C1_payload_manifest_compact (codec : Codec) (m : DpackManifest)
    (dataWalk : List (Bytes × Bytes))
    (hm : (serManifest m).length < 4294967296)
    (hn : (toSortedMap dataWalk).length < 4294967296)
    (h : ∀ pc ∈ toSortedMap dataWalk, isValidUtf8 pc.1 = true ∧ pc.1.length < 4294967296 ∧
      pc.2.length < 18446744073709551616) :
    (compress_dpack codec m dataWalk).1 =
      (CpackHeader.mk 1 1 (sha256 (encode_payload (serManifest m) (toSortedMap dataWalk)))
          (codec.enc (encode_payload (serManifest m) (toSortedMap dataWalk))).length).to_bytes ++
        codec.enc (encode_payload (serManifest m) (toSortedMap dataWalk)) ∧
    decode_payload (encode_payload (serManifest m) (toSortedMap dataWalk)) =
      .ok (serManifest m, toSortedMap dataWalk) ∧
    serManifest m ≠ serManifestPretty m := by
  refine ⟨?_, decode_encode_payload _ _ hm hn h, serManifest_ne_pretty m⟩
  rw [compress_dpack_eq]

theorem C1_payload_manifest_compact_witness :
    ((serManifest mC1).length < 4294967296 ∧
     (toSortedMap ([] : List (Bytes × Bytes))).length < 4294967296 ∧
     (∀ pc ∈ toSortedMap ([] : List (Bytes × Bytes)), isValidUtf8 pc.1 = true ∧
       pc.1.length < 4294967296 ∧ pc.2.length < 18446744073709551616)) ∧
    ((compress_dpack idCodec mC1 []).1 =
      (CpackHeader.mk 1 1
          (sha256 (encode_payload (serManifest mC1) (toSortedMap ([] : List (Bytes × Bytes)))))
          (idCodec.enc (encode_payload (serManifest mC1)
            (toSortedMap ([] : List (Bytes × Bytes))))).length).to_bytes ++
        idCodec.enc (encode_payload (serManifest mC1) (toSortedMap ([] : List (Bytes × Bytes)))) ∧
     decode_payload (encode_payload (serManifest mC1) (toSortedMap ([] : List (Bytes × Bytes)))) =
       .ok (serManifest mC1, toSortedMap ([] : List (Bytes × Bytes))) ∧
     serManifest mC1 ≠ serManifestPretty mC1) :=
  ⟨⟨by decide, by decide, by decide⟩,
   C1_payload_manifest_compact idCodec mC1 [] (by decide) (by decide) (by decide)⟩

/-- C1, the spec sentence at a concrete input: the payload of the cpack
written for `mC1` carries the compact serialization, which is not the
pretty `manifest.json` byte form. -/
theorem C1_counterexample :
    (compress_dpack idCodec mC1 []).1.drop 48 = encode_payload (serManifest mC1) [] ∧
    decode_payload (encode_payload (serManifest mC1) []) = .ok (serManifest mC1, []) ∧
    serManifest mC1 ≠ serManifestPretty mC1 := by decide

/-- C2 (confirmed): decompressing the cpack written for a well-formed DPACK
(data walk already in map order, codec round-trips, sizes within the frame
fields) restores exactly the canonical manifest bytes — which parse back to
the manifest itself, hence equal `pack_hash` and `files` — and restores
every data file byte-for-byte. -/
theorem C2_compress_decompress_roundtrip (codec : Codec) (m : DpackManifest)
    (dataWalk : List (Bytes × Bytes))
    (hsorted : KeysSorted dataWalk)
    (hz : codec.dec (codec.enc (encode_payload (serManifest m) dataWalk)) =
      some (encode_payload (serManifest m) dataWalk))
    (hzl : (codec.enc (encode_payload (serManifest m) dataWalk)).length < 18446744073709551616)
    (hm : (serManifest m).length < 4294967296)
    (hn : dataWalk.length < 4294967296)
    (h : ∀ pc ∈ dataWalk, isValidUtf8 pc.1 = true ∧ pc.1.length < 4294967296 ∧
      pc.2.length < 18446744073709551616) :
    decompress_cpack codec (compress_dpack codec m dataWalk).1 =
      .ok (serManifest m, dataWalk, (compress_dpack codec m dataWalk).2) ∧
    parseManifest (serManifest m) = some m := by
  have hid := toSortedMap_sorted_id hsorted
  refine ⟨?_, parseManifest_serManifest m⟩
  have hc := decompress_compress_core codec m dataWalk (by rw [hid]; exact hz)
    (by rw [hid]; exact hzl) hm (by rw [hid]; exact hn) (by rw [hid]; exact h)
  rw [hid] at hc
  exact hc

theorem C2_compress_decompress_roundtrip_witness :
    (KeysSorted c2walk ∧
     idCodec.dec (idCodec.enc (encode_payload (serManifest mC1) c2walk)) =
       some (encode_payload (serManifest mC1) c2walk) ∧
     (idCodec.enc (encode_payload (serManifest mC1) c2walk)).length < 18446744073709551616 ∧
     (serManifest mC1).length < 4294967296 ∧
     c2walk.length < 4294967296 ∧
     (∀ pc ∈ c2walk, isValidUtf8 pc.1 = true ∧ pc.1.length < 4294967296 ∧
       pc.2.length < 18446744073709551616)) ∧
    (decompress_cpack idCodec (compress_dpack idCodec mC1 c2walk).1 =
      .ok (serManifest mC1, c2walk, (compress_dpack idCodec mC1 c2walk).2) ∧
     parseManifest (serManifest mC1) = some mC1) :=
  ⟨⟨List.chain'_singleton _, rfl, by decide, by decide, by decide, by decide⟩,
   C2_compress_decompress_roundtrip idCodec mC1 c2walk
     (List.chain'_singleton _) rfl (by decide) (by decide) (by decide) (by decide)⟩

/-- C3 (confirmed): `unfurl_pack` runs `verify_pack` first and, whenever the
verify receipt did not pass, returns `VerificationFailed` with the target
directory never created (`none`), so no file was written. -/
theorem C3_unfurl_fail_closed (d : DpackDir) (seed : Seed)
    (h : (verify_pack d seed).passed = false) :
    unfurl_pack d seed = (.error PackError.VerificationFailed, none) := by
  rw [unfurl_pack]
  simp [h]

theorem C3_unfurl_fail_closed_witness :
    (verify_pack c3dpack c3seed).passed = false ∧
    unfurl_pack c3dpack c3seed = (.error PackError.VerificationFailed, none) :=
  ⟨by decide, C3_unfurl_fail_closed c3dpack c3seed (by decide)⟩

/-- C4 (confirmed): over a key-sorted files map (the `BTreeMap` iteration
invariant), `compute_pack_hash` is the hex SHA-256 of the concatenation, in
ascending key order, of `key ++ ":" ++ entry.sha256 ++ "\n"`; and
`verify_integrity` holds iff the stored `pack_hash` equals that
recomputation. -/
theorem C4_pack_hash_recomputation (m : DpackManifest) (hsorted : KeysSorted m.files) :
    compute_pack_hash m.files =
      hexEncode (sha256 (((toSortedMap m.files).map fun kv =>
        kv.1 ++ [58] ++ kv.2.sha256 ++ [10]).flatten)) ∧
    (m.verify_integrity = true ↔
      m.pack_hash = hexEncode (sha256 (((toSortedMap m.files).map fun kv =>
        kv.1 ++ [58] ++ kv.2.sha256 ++ [10]).flatten))) := by
  have h1 : compute_pack_hash m.files =
      hexEncode (sha256 (((toSortedMap m.files).map fun kv =>
        kv.1 ++ [58] ++ kv.2.sha256 ++ [10]).flatten)) := by
    conv_lhs => rw [← toSortedMap_sorted_id hsorted]
    rw [compute_pack_hash, foldl_hash_segments, List.nil_append]
  refine ⟨h1, ?_⟩
  rw [DpackManifest.verify_integrity, ← h1]
  exact beq_iff_eq

theorem C4_pack_hash_recomputation_witness :
    KeysSorted m4c.files ∧
    (compute_pack_hash m4c.files =
      hexEncode (sha256 (((toSortedMap m4c.files).map fun kv =>
        kv.1 ++ [58] ++ kv.2.sha256 ++ [10]).flatten)) ∧
     (m4c.verify_integrity = true ↔
      m4c.pack_hash = hexEncode (sha256 (((toSortedMap m4c.files).map fun kv =>
        kv.1 ++ [58] ++ kv.2.sha256 ++ [10]).flatten)))) :=
  ⟨List.chain'_cons.2 ⟨by decide, List.chain'_singleton _⟩,
   C4_pack_hash_recomputation m4c (List.chain'_cons.2 ⟨by decide, List.chain'_singleton _⟩)⟩

/-- C5 (confirmed): `decompress_cpack` fails with `HeaderTooShort` on
inputs shorter than 48 bytes; with `PayloadTruncated` when the bytes after
the 48-byte header do not number `compressed_size`; and with
`IntegrityMismatch` when the decompressed payload hashes differently from
the header record — an error result means nothing was written. -/
theorem C5_decompress_error_cases (codec : Codec) (data : Bytes) :
    (data.length < 48 →
      decompress_cpack codec data = .error (FrameError.HeaderTooShort data.length 48)) ∧
    (∀ hdr : CpackHeader, CpackHeader.from_bytes data = .ok hdr →
      (data.drop 48).length ≠ hdr.compressed_size →
      decompress_cpack codec data = .error FrameError.PayloadTruncated) ∧
    (∀ (hdr : CpackHeader) (payload : Bytes), CpackHeader.from_bytes data = .ok hdr →
      (data.drop 48).length = hdr.compressed_size →
      codec.dec (data.drop 48) = some payload →
      sha256 payload ≠ hdr.payload_sha256 →
      decompress_cpack codec data = .error FrameError.IntegrityMismatch) := by
  refine ⟨fun hlt => ?_, fun hdr hok hne => ?_, fun hdr payload hok heq hdec hsha => ?_⟩
  · rw [decompress_cpack, if_pos hlt]
  · rw [decompress_cpack, if_neg (from_bytes_ok_len hok), hok, exceptBind_ok]
    dsimp only
    rw [if_pos hne]
  · rw [decompress_cpack, if_neg (from_bytes_ok_len hok), hok, exceptBind_ok]
    dsimp only
    rw [if_neg (fun hc => hc heq), hdec]
    dsimp only
    rw [if_pos hsha]

theorem C5_decompress_error_cases_witness :
    (([] : Bytes).length < 48 ∧
     decompress_cpack idCodec [] = .error (FrameError.HeaderTooShort ([] : Bytes).length 48)) ∧
    (CpackHeader.from_bytes c5data2 = .ok c5hdr2 ∧
     (c5data2.drop 48).length ≠ c5hdr2.compressed_size ∧
     decompress_cpack idCodec c5data2 = .error FrameError.PayloadTruncated) ∧
    (CpackHeader.from_bytes c5data3 = .ok c5hdr3 ∧
     (c5data3.drop 48).length = c5hdr3.compressed_size ∧
     idCodec.dec (c5data3.drop 48) = some [7] ∧
     sha256 [7] ≠ c5hdr3.payload_sha256 ∧
     decompress_cpack idCodec c5data3 = .error FrameError.IntegrityMismatch) :=
  ⟨⟨by decide, (C5_decompress_error_cases idCodec []).1 (by decide)⟩,
   ⟨by decide, by decide,
    (C5_decompress_error_cases idCodec c5data2).2.1 c5hdr2 (by decide) (by decide)⟩,
   ⟨by decide, by decide, by decide, by decide,
    (C5_decompress_error_cases idCodec c5data3).2.2 c5hdr3 [7]
      (by decide) (by decide) (by decide) (by decide)⟩⟩

/-- C6 (corrected): for a star-free name X, the pattern `**/X` matches
exactly the paths of which X is a byte suffix — not only at segment
boundaries: the `ends_with` fast path accepts X anywhere at the end of the
path, segment boundary or not. -/
theorem C6_dstar_matches_suffix (X p : Bytes) (hX : X.count 42 = 0) :
    glob_match (lit "**/" ++ X) p = some (X.isSuffixOf p) :=
  glob_match_dstar_literal X p hX

theorem C6_dstar_matches_suffix_witness :
    (lit "b").count 42 = 0 ∧
    glob_match (lit "**/" ++ lit "b") (lit "a/b") = some ((lit "b").isSuffixOf (lit "a/b")) :=
  ⟨by decide, C6_dstar_matches_suffix (lit "b") (lit "a/b") (by decide)⟩

/-- C6, the segment-boundary reading refuted at a concrete input: `**/b`
matches the path `ab`, although `b` is neither the first segment of `ab`
nor preceded by a `/` separator in it. -/
theorem C6_counterexample :
    glob_match (lit "**/" ++ lit "b") (lit "ab") = some true ∧
    ¬(lit "b" = lit "ab" ∨ ∃ t ∈ slashTails (lit "ab"), lit "b" = t) := by decide

/-- C7 (corrected): the round trip restores the shape only for repositories
every file of which the effective policy admits; the claim as stated fails
on repositories containing `.git` entries, which the default policy drops.
Under the all-admitted hypothesis: packing, unfurling the packed DPACK, and
comparing shapes yields true. -/
theorem C7_pack_unfurl_shape (repo : List (Bytes × Bytes)) (sr : Bytes) (seed : Seed)
    (policy : Option Policy)
    (hall : ∀ pc ∈ repo, (policy.getD Policy.defaultPolicy).is_allowed pc.1 = some true) :
    (pack_repo repo sr seed policy).map
        (fun dr => (unfurl_pack dr.1 seed).2.map fun tgt => verify_shape_equivalence repo tgt) =
      some (some true) := by
  rw [pack_repo]
  dsimp only
  rw [packWalk_all_allowed (policy.getD Policy.defaultPolicy) repo ([], []) hall]
  dsimp only
  rw [packFiles_eq]
  rw [show repo.foldl (fun m pc => insertSorted pc.1 pc.2 m) [] = toSortedMap repo from rfl]
  simp only [Option.map_some']
  have hu := unfurl_pack_packed repo sr seed
  dsimp only [packedManifest] at hu
  rw [hu]
  simp only [Option.map_some']
  rw [shape_equiv_toSortedMap]

theorem C7_pack_unfurl_shape_witness :
    (∀ pc ∈ c8repo, ((none : Option Policy).getD Policy.defaultPolicy).is_allowed pc.1 =
      some true) ∧
    (pack_repo c8repo (lit "r") c7seed none).map
        (fun dr => (unfurl_pack dr.1 c7seed).2.map fun tgt =>
          verify_shape_equivalence c8repo tgt) =
      some (some true) :=
  ⟨by decide, C7_pack_unfurl_shape c8repo (lit "r") c7seed none (by decide)⟩

/-- C7, refuted as stated at a concrete input: a repository holding a
`.git` file packs, verifies and unfurls, but the restored tree lacks the
excluded file, so shape equivalence is false. -/
theorem C7_counterexample :
    (pack_repo c7badRepo (lit "r") c7seed none).map
        (fun dr => (unfurl_pack dr.1 c7seed).2.map fun tgt =>
          verify_shape_equivalence c7badRepo tgt) =
      some (some false) := by decide

/-- C8 (confirmed): whenever `pack_repo` succeeds, every key of the
produced manifest files map and every path written under `data/` is
admitted by the effective policy, and in particular matches no exclude
glob. -/
theorem C8_packed_paths_allowed (repo : List (Bytes × Bytes)) (sr : Bytes) (seed : Seed)
    (policy : Option Policy) (d : DpackDir) (r : AuditReceipt)
    (h : pack_repo repo sr seed policy = some (d, r)) :
    (∀ kv ∈ d.manifest.files,
      (policy.getD Policy.defaultPolicy).is_allowed kv.1 = some true ∧
      ∀ pat ∈ (policy.getD Policy.defaultPolicy).exclude, glob_match pat kv.1 = some false) ∧
    (∀ kv ∈ d.data,
      (policy.getD Policy.defaultPolicy).is_allowed kv.1 = some true ∧
      ∀ pat ∈ (policy.getD Policy.defaultPolicy).exclude, glob_match pat kv.1 = some false) := by
  rw [pack_repo] at h
  dsimp only at h
  cases hw : packWalk (policy.getD Policy.defaultPolicy) repo ([], []) with
  | none => rw [hw] at h; simp at h
  | some fd =>
    obtain ⟨F, D⟩ := fd
    rw [hw] at h
    dsimp only at h
    rw [Option.some.injEq, Prod.mk.injEq] at h
    obtain ⟨hd, hr⟩ := h
    subst hd
    dsimp only
    have hmem := packWalk_mem_allowed (policy.getD Policy.defaultPolicy) repo ([], []) F D hw
    refine ⟨fun kv hkv => ?_, fun kv hkv => ?_⟩
    · rcases hmem.1 kv hkv with hin | hall
      · simp at hin
      · exact ⟨hall, fun pat hp => anyGlob_false (is_allowed_true_excl hall) pat hp⟩
    · rcases hmem.2 kv hkv with hin | hall
      · simp at hin
      · exact ⟨hall, fun pat hp => anyGlob_false (is_allowed_true_excl hall) pat hp⟩

theorem C8_packed_paths_allowed_witness :
    pack_repo c8repo (lit "r") c8seed none = some (c8dpack, c8receipt) ∧
    ((∀ kv ∈ c8dpack.manifest.files,
       ((none : Option Policy).getD Policy.defaultPolicy).is_allowed kv.1 = some true ∧
       ∀ pat ∈ ((none : Option Policy).getD Policy.defaultPolicy).exclude,
         glob_match pat kv.1 = some false) ∧
     (∀ kv ∈ c8dpack.data,
       ((none : Option Policy).getD Policy.defaultPolicy).is_allowed kv.1 = some true ∧
       ∀ pat ∈ ((none : Option Policy).getD Policy.defaultPolicy).exclude,
         glob_match pat kv.1 = some false)) :=
  ⟨by decide,
   C8_packed_paths_allowed c8repo (lit "r") c8seed none c8dpack c8receipt (by decide)⟩

/-- C9 (code bug): the claimed case analysis fails because `glob_match`
can panic.  With empty include list and exclude pattern `a*ab`, the path
`ab` matches no exclude glob under the single-star semantics (a match
would need length at least 3), so `is_allowed` should return true; instead
the single-star branch slices `path[1..0]` — a reversed range — and the
Rust program panics (modelled as `none`), returning no Bool at all. -/
theorem C9_is_allowed_diverges :
    Policy.is_allowed ⟨[], [lit "a*ab"]⟩ (lit "ab") = none ∧
    ∀ b : Bool, Policy.is_allowed ⟨[], [lit "a*ab"]⟩ (lit "ab") ≠ some b := by decide

/-- C10 (corrected): a pattern with two or more stars, not `**/`-prefixed
and not `/**`-suffixed, falls through to the two-part split, which returns
false for every path of length differing from the pattern — but the
exact-equality fast path fires first, so the pattern does match the one
path that is byte-identical to it.  It matches exactly that path, not
nothing. -/
theorem C10_multistar_only_self (pattern : Bytes) (h2 : 2 ≤ pattern.count 42)
    (hpre : pattern.take 3 ≠ [42, 42, 47])
    (hsuf : ¬([47, 42, 42].isSuffixOf pattern = true)) :
    ∀ path : Bytes, glob_match pattern path = some (pattern == path) :=
  glob_match_multistar pattern h2 hpre hsuf

theorem C10_multistar_only_self_witness :
    (2 ≤ (lit "src/**/test.rs").count 42 ∧ (lit "src/**/test.rs").take 3 ≠ [42, 42, 47] ∧
     ¬([47, 42, 42].isSuffixOf (lit "src/**/test.rs") = true)) ∧
    glob_match (lit "src/**/test.rs") (lit "x") = some (lit "src/**/test.rs" == lit "x") :=
  ⟨⟨by decide, by decide, by decide⟩,
   C10_multistar_only_self (lit "src/**/test.rs") (by decide) (by decide) (by decide) (lit "x")⟩

/-- C10, the matches-nothing reading refuted at a concrete input: the
two-star pattern `a*b*.rs` matches the path spelled exactly like the
pattern. -/
theorem C10_counterexample :
    2 ≤ (lit "a*b*.rs").count 42 ∧ (lit "a*b*.rs").take 3 ≠ [42, 42, 47] ∧
    ¬([47, 42, 42].isSuffixOf (lit "a*b*.rs") = true) ∧
    glob_match (lit "a*b*.rs") (lit "a*b*.rs") = some true := by decide


end Origin
